import Mathlib

/-
Shallow embedding of the fallback resolution pipeline of `src/app.py`
(YouTube video downloader service): proxy candidate construction, the
strategy-chain orchestrator, per-source metadata normalizers, the mirror
stream selector, and the download orchestrator.  Python dictionaries are
modeled as association lists over a scalar value universe; network and
filesystem effects are modeled as explicit oracle inputs and state
passing.
-/

namespace YtDl

/-! ### Python scalar values and dictionaries -/

/-- Scalar Python values as they appear in the JSON payloads the service
consumes.  `vnone` is Python `None`, `vother` stands for any value that is
neither `None`, `int`, `bool` nor `str` (e.g. a list), which `int(...)`
rejects with `TypeError`. -/
inductive Val where
  | vnone
  | vint (n : Int)
  | vstr (s : String)
  | vbool (b : Bool)
  | vother
deriving DecidableEq, Repr

/-- Python truthiness on the scalar universe: `None`, `0`, `""` and
`False` are falsy; `vother` models a truthy object. -/
def pyTruthy : Val → Bool
  | Val.vnone => false
  | Val.vint n => decide (n ≠ 0)
  | Val.vstr s => decide (s ≠ "")
  | Val.vbool b => b
  | Val.vother => true

/-- Python `a or b`. -/
def pyOr (a b : Val) : Val := if pyTruthy a then a else b

/-- A Python dictionary with string keys and scalar values. -/
abbrev PyDict := List (String × Val)

/-- `d.get(k)`: value of key `k`, or `None` when absent.  A key that is
present with value `None` and an absent key are both reported as `vnone`,
exactly as Python `dict.get` does. -/
def dget (d : PyDict) (k : String) : Val :=
  match d.lookup k with
  | some v => v
  | Option.none => Val.vnone

/-- `d.get(k, dflt)`: value of key `k`, or `dflt` when the key is absent. -/
def dgetD (d : PyDict) (k : String) (dflt : Val) : Val :=
  match d.lookup k with
  | some v => v
  | Option.none => dflt

/-- `d[k] = v` on a Python dict: overwrite in place when the key exists
(position kept), otherwise append at the end. -/
def dset (d : PyDict) (k : String) (v : Val) : PyDict :=
  if d.any (fun kv => kv.1 = k) then
    d.map (fun kv => if kv.1 = k then (k, v) else kv)
  else
    d ++ [(k, v)]

/-!
The Lean core `String` functions that walk byte positions are opaque to
the kernel, so the string processing the source performs is embedded by
structurally recursive functions over `List Char`.  Characters are
compared by code point, as Python does.
-/

/-- Prefix test on character lists (`str.startswith`). -/
def isPrefixList : List Char → List Char → Bool
  | [], _ => true
  | _ :: _, [] => false
  | a :: as, b :: bs => a = b ∧ isPrefixList as bs

/-- Substring test on character lists (Python `pat in s`). -/
def containsSub (pat : List Char) : List Char → Bool
  | [] => isPrefixList pat []
  | c :: cs => isPrefixList pat (c :: cs) || containsSub pat cs

/-- Split on a single separator character (`str.split(sep)`, keeping
empty groups, as Python does). -/
def splitOnChar (sep : Char) : List Char → List (List Char)
  | [] => [[]]
  | c :: cs =>
    let r := splitOnChar sep cs
    if c = sep then [] :: r
    else
      match r with
      | g :: gs => (c :: g) :: gs
      | [] => [[c]]

/-- ASCII whitespace recognized by `str.strip()`. -/
def isSpaceChar (c : Char) : Bool :=
  c = ' ' ∨ c = '\t' ∨ c = '\n' ∨ c = '\r' ∨ c = '\x0b' ∨ c = '\x0c'

/-- Drop leading characters matching `p`. -/
def dropLeading (p : Char → Bool) : List Char → List Char
  | [] => []
  | c :: cs => if p c then dropLeading p cs else c :: cs

/-- `str.strip()`: remove whitespace from both ends. -/
def stripList (cs : List Char) : List Char :=
  dropLeading isSpaceChar ((dropLeading isSpaceChar cs.reverse).reverse)

/-- Lexicographic `≤` by code point (Python string comparison). -/
def charListLe : List Char → List Char → Bool
  | [], _ => true
  | _ :: _, [] => false
  | a :: as, b :: bs => a.toNat < b.toNat ∨ (a.toNat = b.toNat ∧ charListLe as bs)

/-- Join character-list path components with a separator. -/
def joinChar (sep : Char) : List (List Char) → List Char
  | [] => []
  | [g] => g
  | g :: gs => g ++ sep :: joinChar sep gs

/-- Keep the digit characters of a string
(`''.join(ch for ch in s if ch.isdigit())`, ASCII digits). -/
def digitsOf (s : String) : String :=
  String.mk (s.toList.filter Char.isDigit)

/-- Evaluate a (possibly empty) digit string as a natural number;
the empty string yields 0, matching `int(digits or 0)`. -/
def digitsToNat (s : String) : Nat :=
  s.toList.foldl (fun n c => n * 10 + (c.toNat - 48)) 0

/-- Parse a string as Python `int(s)` does: surrounding whitespace
stripped, an optional sign, then decimal digits.  `Option.none` models
`ValueError`. -/
def parseIntStr (s : String) : Option Int :=
  let core :=
    match stripList s.toList with
    | '-' :: rest => (true, rest)
    | '+' :: rest => (false, rest)
    | rest => (false, rest)
  if core.2 ≠ [] ∧ core.2.all Char.isDigit then
    some (if core.1 then -(digitsToNat (String.mk core.2) : Int)
          else (digitsToNat (String.mk core.2) : Int))
  else Option.none

/-- Python `int(v)` on a scalar value; `Option.none` models the raised
`TypeError`/`ValueError`.  `bool` is an `int` subclass in Python, so
`int(True) = 1`. -/
def pyIntOfVal : Val → Option Int
  | Val.vint n => some n
  | Val.vbool b => some (if b then 1 else 0)
  | Val.vstr s => parseIntStr s
  | Val.vnone => Option.none
  | Val.vother => Option.none

/-- Store an optional integer in a dict slot the way the Python mappers
do: the integer itself, or `None`. -/
def valOfOptInt : Option Int → Val
  | some n => Val.vint n
  | Option.none => Val.vnone

/-- Store an optional string in a dict slot: the string itself or `None`. -/
def valOfOptStr : Option String → Val
  | some s => Val.vstr s
  | Option.none => Val.vnone

/-- Substring test, modeling Python `pat in s`. -/
def strContains (s pat : String) : Bool :=
  containsSub pat.toList s.toList

/-- `str.zfill`-style left padding with `'0'` to width `w` on character
lists (the inputs the service pads are plain digit strings, where
`str.zfill` is exactly left padding). -/
def zfillL (w : Nat) (cs : List Char) : List Char :=
  List.replicate (w - cs.length) '0' ++ cs

/-- `str.zfill` on strings. -/
def zfill (w : Nat) (s : String) : String :=
  String.mk (zfillL w s.toList)

/-! ### Proxy configuration (`_normalize_proxy_url`, `_build_proxy_candidates`) -/

/-- `_normalize_proxy_url`: ensure proxies include a scheme. -/
def normalizeProxyUrl (proxy : Option String) : Option String :=
  match proxy with
  | Option.none => Option.none
  | some p =>
    let q := String.mk (stripList p.toList)
    if q = "" then Option.none
    else if strContains q "://" then some q
    else some ("http://" ++ q)

/-- The candidate list of `_build_proxy_candidates` before deduplication,
in the order the source appends: forced proxy, static pool, direct
(`Option.none`), then the free proxy returned by `get_free_proxy` (its
result is an explicit input here).  Truthiness guards mirror
`if FORCED_PROXY:` and `if free_proxy:`. -/
def rawProxyCandidates (forced : Option String) (pool : List String)
    (allowDirect includeDirect freeEnabled : Bool)
    (freeProxy : Option String) : List (Option String) :=
  (match forced with
   | some f => if f ≠ "" then [some f] else []
   | Option.none => []) ++
  pool.map some ++
  (if includeDirect ∧ allowDirect then [Option.none] else []) ++
  (if freeEnabled then
    match freeProxy with
    | some fp => if fp ≠ "" then [some fp] else []
    | Option.none => []
   else [])

/-- The deduplication key: `proxy or "DIRECT"`. -/
def proxyKey : Option String → String
  | Option.none => "DIRECT"
  | some p => if p = "" then "DIRECT" else p

/-- The dedup loop of `_build_proxy_candidates`: walk the candidates with
a `seen` set of keys, keeping the first occurrence of each key. -/
def pyDedupKeyed : List (Option String) → List String → List (Option String)
  | [], _ => []
  | c :: rest, seen =>
    if proxyKey c ∈ seen then pyDedupKeyed rest seen
    else c :: pyDedupKeyed rest (proxyKey c :: seen)

/-- `_build_proxy_candidates`: assemble, dedup, and fall back to a single
direct entry when nothing survives (`return filtered or [None]`). -/
def buildProxyCandidates (forced : Option String) (pool : List String)
    (allowDirect includeDirect freeEnabled : Bool)
    (freeProxy : Option String) : List (Option String) :=
  let filtered :=
    pyDedupKeyed (rawProxyCandidates forced pool allowDirect includeDirect freeEnabled freeProxy) []
  if filtered.isEmpty then [Option.none] else filtered

/-- Deduplication as the spec words it: keep the first occurrence of each
(normalized) value, preserving order.  Used to compare the source's
seen-set loop against the spec's description. -/
def specDedupKeyed : List (Option String) → List (Option String)
  | [] => []
  | c :: rest =>
    c :: specDedupKeyed (rest.filter (fun d => proxyKey d ≠ proxyKey c))
termination_by l => l.length
decreasing_by
  simp only [List.length_cons]
  exact Nat.lt_succ_of_le (List.length_filter_le _ _)

/-! ### Free proxy fetch (`get_free_proxy`) -/

/-- The valid-proxy list extracted from one source body:
`response.text.strip().split('\n')`, keeping stripped non-empty lines that
do not start with `#` (the `startswith` test runs on the unstripped
line). -/
def validProxiesOf (body : String) : List String :=
  (splitOnChar '\n' (stripList body.toList)).filterMap (fun p =>
    if stripList p ≠ [] ∧ ¬ isPrefixList "#".toList p then
      some (String.mk (stripList p))
    else Option.none)

/-- Scheme prefix chosen per source: `https` when the source URL mentions
it, else `http`. -/
def proxyUrlFor (sourceUrl proxy : String) : String :=
  if strContains sourceUrl "https" then "https://" ++ proxy else "http://" ++ proxy

/-- Probe loop over the sampled candidates: return the first prefixed
proxy the liveness probe accepts. -/
def probeSampled (sourceUrl : String) (probe : String → Bool) :
    List String → Option String
  | [] => Option.none
  | p :: rest =>
    let u := proxyUrlFor sourceUrl p
    if probe u then some u else probeSampled sourceUrl probe rest

/-- `get_free_proxy`.  Each source is an input pair of its URL and the
fetched body (`Option.none` models a non-200 status or an exception).
`random.sample` and `random.choice` are modeled by explicit index inputs:
the sample probes `min 3 (length valid)` candidates drawn by `sampleIdx`,
and when none responds the function returns the entry at `choiceIdx`
(mod the list length) unverified — the source's `random.choice`. -/
def getFreeProxy (sources : List (String × Option String))
    (probe : String → Bool) (sampleIdx : List Nat) (choiceIdx : Nat) :
    Option String :=
  match sources with
  | [] => Option.none
  | (url, body?) :: rest =>
    match body? with
    | Option.none => getFreeProxy rest probe sampleIdx choiceIdx
    | some body =>
      let valid := validProxiesOf body
      if valid.isEmpty then getFreeProxy rest probe sampleIdx choiceIdx
      else
        let tried := (sampleIdx.take (min 3 valid.length)).map
          (fun i => valid.getD (i % valid.length) "")
        match probeSampled url probe tried with
        | some u => some u
        | Option.none => some (proxyUrlFor url (valid.getD (choiceIdx % valid.length) ""))

/-! ### Date normalization (`_format_upload_date`, `_normalize_simple_date`) -/

/-- Proleptic Gregorian civil date from days since 1970-01-01
(the standard era-based algorithm), used to model
`datetime.utcfromtimestamp(..).strftime('%Y%m%d')`. -/
def civilFromDays (z0 : Int) : Int × Int × Int :=
  let z := z0 + 719468
  let era := z.fdiv 146097
  let doe := (z - era * 146097).toNat
  let yoe := (doe - doe / 1460 + doe / 36524 - doe / 146096) / 365
  let y := (yoe : Int) + era * 400
  let doy := doe - (365 * yoe + yoe / 4 - yoe / 100)
  let mp := (5 * doy + 2) / 153
  let d := doy - (153 * mp + 2) / 5 + 1
  let m := if mp < 10 then (mp : Int) + 3 else (mp : Int) - 9
  (if m ≤ 2 then y + 1 else y, m, (d : Int))

/-- `_format_upload_date`: `YYYYMMDD` from an epoch-seconds timestamp.
Falsy input (`None`, `0`, `""`) returns `None`; `int(...)` failures and
out-of-range years (Python `datetime` accepts years 1..9999) are caught
and return `None`. -/
def formatUploadDate (timestamp : Val) : Option String :=
  if ¬ pyTruthy timestamp then Option.none
  else
    match pyIntOfVal timestamp with
    | Option.none => Option.none
    | some t =>
      let days := t.fdiv 86400
      let c := civilFromDays days
      if c.1 < 1 ∨ c.1 > 9999 then Option.none
      else some (zfill 4 (toString c.1) ++ zfill 2 (toString c.2.1) ++ zfill 2 (toString c.2.2))

/-- `_normalize_simple_date`: accept `YYYY-MM-DD` / `YYYY/MM/DD` style
strings (three all-digit groups, zero-filled to 4-2-2) or an 8-digit
numeral, and return `YYYYMMDD`; everything else returns `None`. -/
def normalizeSimpleDate (dateStr : Val) : Option String :=
  match dateStr with
  | Val.vstr s =>
    let clean0 := stripList s.toList
    if clean0 = [] then Option.none
    else
      let clean := clean0.map (fun ch => if ch = '/' then '-' else ch)
      match splitOnChar '-' clean with
      | [a, b, c] =>
        if (a ≠ [] ∧ a.all Char.isDigit) ∧ (b ≠ [] ∧ b.all Char.isDigit) ∧
            (c ≠ [] ∧ c.all Char.isDigit) then
          some (String.mk (zfillL 4 a ++ zfillL 2 b ++ zfillL 2 c))
        else if (clean ≠ [] ∧ clean.all Char.isDigit) ∧ clean.length = 8 then
          some (String.mk clean)
        else Option.none
      | _ =>
        if (clean ≠ [] ∧ clean.all Char.isDigit) ∧ clean.length = 8 then
          some (String.mk clean)
        else Option.none
  | _ => Option.none

/-- The shapes `_normalize_simple_date` accepts: after stripping and
mapping `/` to `-`, either three all-digit groups or an 8-digit numeral. -/
def simpleDateAccepted (s : String) : Bool :=
  let clean0 := stripList s.toList
  if clean0 = [] then false
  else
    let clean := clean0.map (fun ch => if ch = '/' then '-' else ch)
    match splitOnChar '-' clean with
    | [a, b, c] =>
      ((a ≠ [] ∧ a.all Char.isDigit) ∧ (b ≠ [] ∧ b.all Char.isDigit) ∧
        (c ≠ [] ∧ c.all Char.isDigit)) ∨
      ((clean ≠ [] ∧ clean.all Char.isDigit) ∧ clean.length = 8)
    | _ => (clean ≠ [] ∧ clean.all Char.isDigit) ∧ clean.length = 8

/-! ### Public projection (`_public_metadata`) -/

/-- `_public_metadata`: strip internal-only keys (those starting with
`__`) before returning metadata to clients; a missing (`None`) or empty
record projects to the empty record. -/
def publicMetadata {α : Type} (metadata : Option (List (String × α))) :
    List (String × α) :=
  match metadata with
  | Option.none => []
  | some m =>
    if m.isEmpty then []
    else m.filter (fun kv => ¬ isPrefixList "__".toList kv.1.toList)

/-! ### Canonical metadata records and per-source normalizers

The canonical record of the service is a Python dict with ~30 public
fields plus `__`-prefixed internal fields.  The structure below embeds
the fields that the verified properties inspect; in the source each
field is an independent projection of the raw response with no
cross-field control flow, so eliding the remaining fields does not
change any embedded behavior.  A `Val.vnone` in a bookkeeping field
models the corresponding `__` key being absent from the dict. -/

structure Meta where
  id : Val
  title : Val
  duration : Val
  uploadDate : Val
  strategy : Val
  source : Val
  proxy : Val
  mirrorInstance : Val
deriving DecidableEq, Repr

/-- The duration coercion of `_map_invidious_metadata`:
`int(data.get('lengthSeconds')) if data.get('lengthSeconds') is not None
else None`, with `TypeError`/`ValueError` caught to `None`. -/
def invidiousDurationVal (data : PyDict) : Val :=
  match dget data "lengthSeconds" with
  | Val.vnone => Val.vnone
  | v => valOfOptInt (pyIntOfVal v)

/-- The duration coercion of `_map_piped_metadata` on `data['duration']`. -/
def pipedDurationVal (data : PyDict) : Val :=
  match dget data "duration" with
  | Val.vnone => Val.vnone
  | v => valOfOptInt (pyIntOfVal v)

/-- The duration coercion of `_map_player_response_metadata`:
`int(video_details.get('lengthSeconds')) if video_details.get('lengthSeconds')
else None` — gated on truthiness, not on `is not None`. -/
def playerDurationVal (videoDetails : PyDict) : Val :=
  if pyTruthy (dget videoDetails "lengthSeconds") then
    valOfOptInt (pyIntOfVal (dget videoDetails "lengthSeconds"))
  else Val.vnone

/-- `_map_invidious_metadata` (embedded fields).  The caller sets
`__source`/`__proxy`/`__mirror_instance` afterwards. -/
def mapInvidiousMetadata (data : PyDict) (_inst : String) : Meta :=
  { id := pyOr (dget data "videoId") (dget data "id")
    title := dget data "title"
    duration := invidiousDurationVal data
    uploadDate := valOfOptStr (formatUploadDate (dget data "published"))
    strategy := Val.vnone
    source := Val.vnone
    proxy := Val.vnone
    mirrorInstance := Val.vnone }

/-- `_map_piped_metadata` (embedded fields).  `upload_date` is
`_normalize_simple_date(data.get('uploadDate')) or
_format_upload_date(data.get('uploadedTimestamp'))`. -/
def mapPipedMetadata (data : PyDict) (inst : String) : Meta :=
  { id := pyOr (dget data "id") (dget data "videoId")
    title := dget data "title"
    duration := pipedDurationVal data
    uploadDate :=
      pyOr (valOfOptStr (normalizeSimpleDate (dget data "uploadDate")))
        (valOfOptStr (formatUploadDate (dget data "uploadedTimestamp")))
    strategy := Val.vnone
    source := Val.vstr "piped"
    proxy := Val.vnone
    mirrorInstance := Val.vstr inst }

/-- A youtubei/watch-page player response.  Only the `videoDetails`
sub-dict is embedded (the title gate and every embedded field read it);
the field models `player_data.get('videoDetails') or {}`.  A falsy
`player_data` is the `Option.none` case of the mapper input. -/
structure PlayerData where
  videoDetails : PyDict
deriving DecidableEq, Repr

/-- `_map_player_response_metadata`: returns `None` for a falsy player
response or a missing/empty title, otherwise the normalized record
tagged with the producing strategy and proxy. -/
def mapPlayerResponseMetadata (pd : Option PlayerData) (proxy : Option String)
    (strategy : String) : Option Meta :=
  match pd with
  | Option.none => Option.none
  | some p =>
    if ¬ pyTruthy (dget p.videoDetails "title") then Option.none
    else some
      { id := dget p.videoDetails "videoId"
        title := dget p.videoDetails "title"
        duration := playerDurationVal p.videoDetails
        uploadDate := Val.vnone
        strategy := Val.vstr strategy
        source := Val.vstr strategy
        proxy := valOfOptStr proxy
        mirrorInstance := Val.vnone }

/-! ### Metadata fetchers

Network effects are explicit oracle inputs: a response oracle returning
`Option.none` models an exception, a non-200 status, or (for the watch
page) a missing/unparsable `ytInitialPlayerResponse` blob.  Shuffled
mirror lists are modeled by the instance-list parameter being an
arbitrary permutation of the configured list. -/

/-- The proxy loop shared by `fetch_metadata_from_youtubei` and
`fetch_metadata_from_watch_html`: first proxy whose mapped player
response passes the title gate wins. -/
def playerLoop (strategy : String) (resp : Option String → Option PlayerData) :
    List (Option String) → Option Meta
  | [] => Option.none
  | p :: rest =>
    match mapPlayerResponseMetadata (resp p) p strategy with
    | some m => some m
    | Option.none => playerLoop strategy resp rest

/-- `fetch_metadata_from_youtubei`: `None` when no video id could be
extracted, else the proxy loop against the internal player endpoint. -/
def fetchMetadataFromYoutubei (videoId : Option String)
    (proxyCandidates : List (Option String))
    (resp : Option String → Option PlayerData) : Option Meta :=
  match videoId with
  | Option.none => Option.none
  | some _ => playerLoop "youtubei_player" resp proxyCandidates

/-- `fetch_metadata_from_watch_html`. -/
def fetchMetadataFromWatchHtml (videoId : Option String)
    (proxyCandidates : List (Option String))
    (resp : Option String → Option PlayerData) : Option Meta :=
  match videoId with
  | Option.none => Option.none
  | some _ => playerLoop "watch_html_scrape" resp proxyCandidates

/-- Inner proxy loop of `fetch_metadata_from_invidious`: a 200 response
is mapped and returned immediately — there is no title gate on this
path. -/
def invidiousProxyLoop (inst : String)
    (resp : String → Option String → Option PyDict) :
    List (Option String) → Option Meta
  | [] => Option.none
  | p :: rest =>
    match resp inst p with
    | some data =>
      some { mapInvidiousMetadata data inst with
              source := Val.vstr "invidious"
              proxy := valOfOptStr p
              mirrorInstance := Val.vstr inst }
    | Option.none => invidiousProxyLoop inst resp rest

/-- Outer instance loop of `fetch_metadata_from_invidious`. -/
def invidiousLoop (proxyCandidates : List (Option String))
    (resp : String → Option String → Option PyDict) :
    List String → Option Meta
  | [] => Option.none
  | inst :: rest =>
    match invidiousProxyLoop inst resp proxyCandidates with
    | some m => some m
    | Option.none => invidiousLoop proxyCandidates resp rest

/-- `fetch_metadata_from_invidious`. -/
def fetchMetadataFromInvidious (videoId : Option String)
    (instances : List String) (proxyCandidates : List (Option String))
    (resp : String → Option String → Option PyDict) : Option Meta :=
  match videoId with
  | Option.none => Option.none
  | some _ => invidiousLoop proxyCandidates resp instances

/-- Instance loop of `fetch_metadata_from_piped`: a 200 response with a
truthy payload is mapped and returned — no title gate on this path
either. -/
def pipedLoop (resp : String → Option PyDict) : List String → Option Meta
  | [] => Option.none
  | inst :: rest =>
    match resp inst with
    | some data =>
      if data.isEmpty then pipedLoop resp rest
      else some (mapPipedMetadata data inst)
    | Option.none => pipedLoop resp rest

/-- `fetch_metadata_from_piped` (no proxy parameter in the source). -/
def fetchMetadataFromPiped (videoId : Option String)
    (instances : List String) (resp : String → Option PyDict) : Option Meta :=
  match videoId with
  | Option.none => Option.none
  | some _ => pipedLoop resp instances

/-! ### Strategy chain orchestrator (`get_full_video_metadata`) -/

/-- One invocation in the strategy chain: an engine attempt for a given
proxy and 0-based strategy-profile index, or one of the four fallback
fetchers. -/
inductive Call where
  | engine (proxy : Option String) (strategyIdx : Nat)
  | youtubei
  | watchHtml
  | invidious
  | piped
deriving DecidableEq, Repr

/-- The fields of the engine-produced metadata dict embedded in `Meta`.
The engine sets `__proxy` and `__strategy` (1-based strategy name) but no
`__source`. -/
def engineMeta (d : PyDict) (proxy : Option String) (i : Nat) : Meta :=
  { id := dget d "id"
    title := dget d "title"
    duration := dget d "duration"
    uploadDate := dget d "upload_date"
    strategy := Val.vstr ("yt_dlp_strategy_" ++ toString (i + 1))
    source := Val.vnone
    proxy := valOfOptStr proxy
    mirrorInstance := Val.vnone }

/-- One engine attempt: the oracle gives the raw `extract_info` result
(`Option.none` models an exception or a `None` info); the gate is
`if not info or not info.get('title'): continue`. -/
def engineGate (info : Option PyDict) (proxy : Option String) (i : Nat) :
    Option Meta :=
  match info with
  | Option.none => Option.none
  | some d =>
    if d.isEmpty ∨ ¬ pyTruthy (dget d "title") then Option.none
    else some (engineMeta d proxy i)

/-- Inner loop of the engine stage over the 4 strategy profiles, with the
invocation trace of attempted calls. -/
def engineStratLoop (engineInfo : Option String → Nat → Option PyDict)
    (proxy : Option String) : List Nat → Option Meta × List Call
  | [] => (Option.none, [])
  | i :: rest =>
    match engineGate (engineInfo proxy i) proxy i with
    | some m => (some m, [Call.engine proxy i])
    | Option.none =>
      let r := engineStratLoop engineInfo proxy rest
      (r.1, Call.engine proxy i :: r.2)

/-- Outer loop of the engine stage: `for proxy in proxy_candidates: for
i, strategy_func in enumerate(strategies)`. -/
def engineProxyLoop (engineInfo : Option String → Nat → Option PyDict) :
    List (Option String) → Option Meta × List Call
  | [] => (Option.none, [])
  | p :: rest =>
    let r := engineStratLoop engineInfo p (List.range 4)
    match r.1 with
    | some m => (some m, r.2)
    | Option.none =>
      let r2 := engineProxyLoop engineInfo rest
      (r2.1, r.2 ++ r2.2)

/-- All external inputs of one `get_full_video_metadata` run. -/
structure ChainOracles where
  videoId : Option String
  proxyCandidates : List (Option String)
  engineInfo : Option String → Nat → Option PyDict
  youtubeiResp : Option String → Option PlayerData
  watchResp : Option String → Option PlayerData
  invInstances : List String
  invResp : String → Option String → Option PyDict
  pipedInstances : List String
  pipedResp : String → Option PyDict

/-- `get_full_video_metadata`: the engine stage over every proxy
candidate, then the youtubei player endpoint, the watch-page scrape, the
Invidious mirrors, and the Piped mirrors; the first success returns
immediately.  The second component is the trace of strategy invocations
actually performed. -/
def getFullVideoMetadata (o : ChainOracles) : Option Meta × List Call :=
  let e := engineProxyLoop o.engineInfo o.proxyCandidates
  match e.1 with
  | some m => (some m, e.2)
  | Option.none =>
    match fetchMetadataFromYoutubei o.videoId o.proxyCandidates o.youtubeiResp with
    | some m => (some m, e.2 ++ [Call.youtubei])
    | Option.none =>
      match fetchMetadataFromWatchHtml o.videoId o.proxyCandidates o.watchResp with
      | some m => (some m, e.2 ++ [Call.youtubei, Call.watchHtml])
      | Option.none =>
        match fetchMetadataFromInvidious o.videoId o.invInstances o.proxyCandidates o.invResp with
        | some m => (some m, e.2 ++ [Call.youtubei, Call.watchHtml, Call.invidious])
        | Option.none =>
          match fetchMetadataFromPiped o.videoId o.pipedInstances o.pipedResp with
          | some m =>
            (some m, e.2 ++ [Call.youtubei, Call.watchHtml, Call.invidious, Call.piped])
          | Option.none =>
            (Option.none, e.2 ++ [Call.youtubei, Call.watchHtml, Call.invidious, Call.piped])

/-- The fixed priority sequence of the chain, each call paired with the
result its strategy would produce: every engine attempt (proxy-major,
profile-minor), then the four fallback stages. -/
def chainCalls (o : ChainOracles) : List (Call × Option Meta) :=
  (o.proxyCandidates.flatMap fun p =>
    (List.range 4).map fun i => (Call.engine p i, engineGate (o.engineInfo p i) p i)) ++
  [(Call.youtubei, fetchMetadataFromYoutubei o.videoId o.proxyCandidates o.youtubeiResp),
   (Call.watchHtml, fetchMetadataFromWatchHtml o.videoId o.proxyCandidates o.watchResp),
   (Call.invidious,
     fetchMetadataFromInvidious o.videoId o.invInstances o.proxyCandidates o.invResp),
   (Call.piped, fetchMetadataFromPiped o.videoId o.pipedInstances o.pipedResp)]

/-- Reference semantics of a short-circuiting chain: walk the calls in
order, record each attempted call, stop at the first success. -/
def runChain : List (Call × Option Meta) → Option Meta × List Call
  | [] => (Option.none, [])
  | (c, r) :: rest =>
    match r with
    | some m => (some m, [c])
    | Option.none =>
      let t := runChain rest
      (t.1, c :: t.2)

/-! ### Stream selector (`_select_mirror_stream`) -/

/-- `(s.get('mimeType') or s.get('type') or '').lower()`.  A truthy
non-string in these slots would raise `AttributeError` in Python; it is
modeled as the empty string and never instantiated in the theorems. -/
def mimeOf (s : PyDict) : String :=
  match pyOr (dget s "mimeType") (pyOr (dget s "type") (Val.vstr "")) with
  | Val.vstr t => String.mk (t.toList.map Char.toLower)
  | _ => ""

/-- `(s.get('container') or '').lower()`, same proviso as `mimeOf`. -/
def containerOf (s : PyDict) : String :=
  match pyOr (dget s "container") (Val.vstr "") with
  | Val.vstr t => String.mk (t.toList.map Char.toLower)
  | _ => ""

/-- `_is_audio`: mime mentions audio and not video. -/
def isAudioStream (s : PyDict) : Bool :=
  strContains (mimeOf s) "audio" ∧ ¬ strContains (mimeOf s) "video"

/-- The `_audio_score` of the Piped branch: first truthy of
`bitrate`/`avgBitrate`/`averageBitrate`; strings are parsed by keeping
their digits; other values go through `int(bitrate or 0)` with failures
scored 0. -/
def audioScore (s : PyDict) : Int :=
  let bitrate := pyOr (dget s "bitrate") (pyOr (dget s "avgBitrate") (dget s "averageBitrate"))
  match bitrate with
  | Val.vstr t => (digitsToNat (digitsOf t) : Int)
  | b =>
    match pyIntOfVal (pyOr b (Val.vint 0)) with
    | some n => n
    | Option.none => 0

/-- `fallback or 0` used as a numeric sort key.  A truthy non-numeric
fallback would give Python a non-numeric key (raising on comparison with
numeric keys); it is modeled as 0 and never instantiated. -/
def fallbackScore (fallback : Val) : Int :=
  match fallback with
  | Val.vint n => n
  | Val.vbool b => if b then 1 else 0
  | _ => 0

/-- `_score_quality(label, fallback)`: an `int` label is returned as-is
(Python counts `bool` as `int`), a string label contributes its digits,
otherwise `fallback or 0`. -/
def scoreQuality (label fallback : Val) : Int :=
  match label with
  | Val.vint n => n
  | Val.vbool b => if b then 1 else 0
  | Val.vstr t =>
    let digits := digitsOf t
    if digits ≠ "" then (digitsToNat digits : Int) else fallbackScore fallback
  | _ => fallbackScore fallback

/-- Constructor rank used to order raw sort keys: numbers (`int` and
`bool`, which Python compares with each other), then strings, then the
rest.  Python raises `TypeError` on cross-rank comparisons; the fixed
rank order makes the embedded comparator total, and the theorems only
instantiate same-rank key sets. -/
def valRank : Val → Nat
  | Val.vint _ => 0
  | Val.vbool _ => 0
  | Val.vstr _ => 1
  | Val.vnone => 2
  | Val.vother => 3

/-- Numeric reading of a rank-0 key. -/
def valNum : Val → Int
  | Val.vint n => n
  | Val.vbool b => if b then 1 else 0
  | _ => 0

/-- String reading of a rank-1 key. -/
def valStr : Val → String
  | Val.vstr s => s
  | _ => ""

/-- Total comparison of raw sort keys: numeric comparison between
numbers, code-point lexicographic comparison between strings (as in
Python). -/
def valLe (a b : Val) : Bool :=
  decide (valRank a < valRank b) ||
  (decide (valRank a = valRank b) && decide (valNum a < valNum b)) ||
  (decide (valRank a = valRank b) && decide (valNum a = valNum b) &&
    charListLe (valStr a).toList (valStr b).toList)

/-- Streams with a truthy `url`, the precondition every selector branch
filters on. -/
def urlStreams (xs : List PyDict) : List PyDict :=
  xs.filter (fun s => pyTruthy (dget s "url"))

/-- Insert `a` before the first element it compares `le` to. -/
def stableInsert {α : Type} (le : α → α → Bool) (a : α) : List α → List α
  | [] => [a]
  | b :: l => if le a b then a :: b :: l else b :: stableInsert le a l

/-- Structural stable sort (insertion sort).  For a total preorder `le`
this has the semantics of Python's stable `list.sort`: elements with
equal keys keep their original relative order. -/
def stableSortBy {α : Type} (le : α → α → Bool) : List α → List α
  | [] => []
  | a :: l => stableInsert le a (stableSortBy le l)

/-- Stable descending sort by an integer key
(`list.sort(key=…, reverse=True)`). -/
def sortDescBy (key : PyDict → Int) (xs : List PyDict) : List PyDict :=
  stableSortBy (fun a b => decide (key b ≤ key a)) xs

/-- Stable descending sort by a raw value key. -/
def sortDescByVal (key : PyDict → Val) (xs : List PyDict) : List PyDict :=
  stableSortBy (fun a b => valLe (key b) (key a)) xs

/-- Python tuple comparison of the (score, height) pairs of the Piped
best-quality sort. -/
def pairLe (a b : Int × Int) : Bool :=
  decide (a.1 < b.1 ∨ (a.1 = b.1 ∧ a.2 ≤ b.2))

/-- The Piped best-quality sort key:
`(_score_quality(s.get('quality'), s.get('height')), s.get('height') or 0)`. -/
def pipedKeyBest (s : PyDict) : Int × Int :=
  (scoreQuality (dget s "quality") (dget s "height"), fallbackScore (dget s "height"))

/-- The raw key of the Invidious audio sort:
`s.get('bitrate', 0) or s.get('averageBitrate', 0)`. -/
def invAudioKey (s : PyDict) : Val :=
  pyOr (dgetD s "bitrate" (Val.vint 0)) (dgetD s "averageBitrate" (Val.vint 0))

/-- `_quality_score` of the Invidious branch: quality-label digits, else
`int(height or 0)` (an `int()` failure there would propagate in Python;
modeled as 0 and never instantiated). -/
def invQualityScore (s : PyDict) : Int :=
  let label := pyOr (dget s "qualityLabel") (dget s "quality")
  let score := scoreQuality label Val.vnone
  if score ≠ 0 then score
  else
    match pyIntOfVal (pyOr (dget s "height") (Val.vint 0)) with
    | some n => n
    | Option.none => 0

/-- The raw stream bag stored under `__mirror_streams`.  `Option.none`
in a field models the key being absent (`'videoStreams' in streams` is
`isSome` of the first field; `streams.get(k, [])` is `bagGet`). -/
structure StreamBag where
  videoStreams : Option (List PyDict)
  audioStreams : Option (List PyDict)
  formatStreams : Option (List PyDict)
  adaptiveFormats : Option (List PyDict)
deriving DecidableEq, Repr

/-- The empty stream bag (`{}`). -/
def emptyBag : StreamBag :=
  { videoStreams := Option.none, audioStreams := Option.none
    formatStreams := Option.none, adaptiveFormats := Option.none }

/-- `streams.get(key, [])`. -/
def bagGet : Option (List PyDict) → List PyDict
  | some xs => xs
  | Option.none => []

/-- The keys of `metadata_context` that `_select_mirror_stream` and the
mirror download path read.  `mirrorStreams = Option.none` models a
missing or falsy `__mirror_streams` (the source replaces it by `{}`);
`mirrorType` is the raw `__mirror_type` value (`vnone` when absent). -/
structure MirrorCtx where
  mirrorStreams : Option StreamBag
  mirrorType : Val
deriving DecidableEq, Repr

/-- `_select_mirror_stream`: pick the best stream from the mirror bag for
the requested quality, or `None` when no eligible stream exists. -/
def selectMirrorStream (ctx : Option MirrorCtx) (quality : String) :
    Option PyDict :=
  match ctx with
  | Option.none => Option.none
  | some c =>
    let bag := match c.mirrorStreams with
      | some b => b
      | Option.none => emptyBag
    let mirrorType :=
      pyOr c.mirrorType
        (if bag.videoStreams.isSome then Val.vstr "piped" else Val.vstr "invidious")
    if mirrorType = Val.vstr "piped" then
      let videoStreams := urlStreams (bagGet bag.videoStreams)
      let audioStreams := urlStreams (bagGet bag.audioStreams)
      if quality = "audio" then
        if audioStreams.isEmpty then Option.none
        else
          match sortDescBy audioScore audioStreams with
          | s :: _ => some (dset s "__mirror_type" (Val.vstr "piped"))
          | [] => Option.none
      else
        let combined0 := videoStreams.filter (fun s => ¬ pyTruthy (dget s "videoOnly"))
        let combined :=
          if combined0.isEmpty then videoStreams.filter (fun s => pyTruthy (dget s "hasAudio"))
          else combined0
        if combined.isEmpty then Option.none
        else
          match stableSortBy (fun a b => pairLe (pipedKeyBest b) (pipedKeyBest a)) combined with
          | s :: _ => some (dset s "__mirror_type" (Val.vstr "piped"))
          | [] => Option.none
    else
      let formatStreams := urlStreams (bagGet bag.formatStreams)
      let adaptiveStreams := urlStreams (bagGet bag.adaptiveFormats)
      if quality = "audio" then
        let audio0 := adaptiveStreams.filter isAudioStream
        let audioStreams :=
          if audio0.isEmpty then formatStreams.filter isAudioStream else audio0
        if audioStreams.isEmpty then Option.none
        else
          match sortDescByVal invAudioKey audioStreams with
          | s :: _ => some s
          | [] => Option.none
      else
        let progressive := formatStreams.filter (fun s => ¬ isAudioStream s)
        if progressive.isEmpty then Option.none
        else
          match sortDescBy invQualityScore progressive with
          | s :: _ => some s
          | [] => Option.none

/-! ### Download orchestrator (`download_video`)

The filesystem is explicit state: a set of directories and a map from
file paths to sizes.  HTTP streaming, the extraction engine, and ffmpeg
are oracle inputs; headers, proxies and TLS verification do not affect
the filesystem and are absorbed by the oracles. -/

structure FS where
  dirs : List String
  files : List (String × Nat)
deriving DecidableEq, Repr

/-- `mkdir(exist_ok=True)`. -/
def fsMkdir (fs : FS) (d : String) : FS :=
  { dirs := if d ∈ fs.dirs then fs.dirs else d :: fs.dirs, files := fs.files }

/-- Create or overwrite a file with the given size. -/
def fsWrite (fs : FS) (p : String) (size : Nat) : FS :=
  { dirs := fs.dirs, files := (p, size) :: fs.files.filter (fun e => e.1 ≠ p) }

/-- `unlink(missing_ok=True)`. -/
def fsUnlink (fs : FS) (p : String) : FS :=
  { dirs := fs.dirs, files := fs.files.filter (fun e => e.1 ≠ p) }

/-- `Path.exists()`. -/
def fsExists (fs : FS) (p : String) : Bool :=
  fs.files.any (fun e => e.1 = p)

/-- Size of an existing file. -/
def fsSize (fs : FS) (p : String) : Option Nat :=
  fs.files.lookup p

/-- `_infer_extension`. -/
def inferExtension (stream : PyDict) (dflt : String) : String :=
  let mime := mimeOf stream
  let container := containerOf stream
  if strContains mime "webm" ∨ strContains container "webm" then "webm"
  else if strContains mime "mp4" ∨ strContains container "mp4" then "mp4"
  else if strContains mime "m4a" then "m4a"
  else if strContains mime "mp3" then "mp3"
  else if container ≠ "" then container
  else dflt

/-- The stem of a path component under `pathlib` suffix rules: cut at the
last dot unless it is the leading character. -/
def nameStem (cs : List Char) : List Char :=
  match ((List.range cs.length).filter
      (fun i => cs.getD i ' ' = '.' ∧ i > 0)).getLast? with
  | some i => cs.take i
  | Option.none => cs

/-- `Path.with_suffix`: replace (or append) the suffix of the last path
component. -/
def withSuffix (p : String) (newSuffix : String) : String :=
  let parts := splitOnChar '/' p.toList
  let name := parts.getLastD []
  String.mk (joinChar '/' (parts.dropLast ++ [nameStem name ++ newSuffix.toList]))

/-- `_convert_audio_to_mp3`.  The oracle `ffmpegOut = some size` models
ffmpeg exiting 0 having produced the target file of that size, after
which the source is unlinked; `Option.none` models a nonzero exit, a
missing ffmpeg binary, or a missing target, where the source path is
returned unchanged (the function never fails the operation). -/
def convertAudioToMp3 (sourcePath : String) (ffmpegOut : Option Nat) (fs : FS) :
    String × FS :=
  let targetPath := withSuffix sourcePath ".mp3"
  match ffmpegOut with
  | some size => (targetPath, fsUnlink (fsWrite fs targetPath size) sourcePath)
  | Option.none => (sourcePath, fs)

/-- `_download_stream_via_requests`: a missing/falsy stream URL fails
immediately; `resp = some chunks` models a 200 response streamed as
chunk sizes (`if chunk:` skips empty chunks); `Option.none` models any
HTTP error or exception, after which the partial temp file is unlinked. -/
def downloadStreamViaRequests (stream : PyDict) (tempDir fileId : String)
    (resp : Option (List Nat)) (fs : FS) : Option String × FS :=
  if ¬ pyTruthy (dget stream "url") then (Option.none, fs)
  else
    let tempFile := tempDir ++ "/" ++ fileId ++ "." ++ inferExtension stream "mp4"
    match resp with
    | Option.none => (Option.none, fsUnlink fs tempFile)
    | some chunks =>
      (some tempFile, fsWrite fs tempFile (chunks.filter (fun c => c ≠ 0)).sum)

/-- `_download_via_mirror`: select a stream, download it, and for audio
quality run the mp3 conversion. -/
def downloadViaMirror (ctx : Option MirrorCtx) (quality tempDir fileId : String)
    (resp : Option (List Nat)) (ffmpegOut : Option Nat) (fs : FS) :
    Option String × FS :=
  match selectMirrorStream ctx quality with
  | Option.none => (Option.none, fs)
  | some stream =>
    let r := downloadStreamViaRequests stream tempDir fileId resp fs
    match r.1 with
    | Option.none => (Option.none, r.2)
    | some p =>
      if quality = "audio" then
        let c := convertAudioToMp3 p ffmpegOut r.2
        (some c.1, c.2)
      else (some p, r.2)

/-- External outcomes of one `download_video` run: the two mirror
attempts (HTTP response and ffmpeg result each) and the engine attempt.
`engineFiles` are the files `yt-dlp` wrote into the filesystem (written
whether or not it then raised); `engineFilename = some fn` is the
`prepare_filename` result, `Option.none` models `extract_info` raising. -/
structure DownloadOracles where
  mirrorResp1 : Option (List Nat)
  ffmpeg1 : Option Nat
  engineFiles : List (String × Nat)
  engineFilename : Option String
  mirrorResp2 : Option (List Nat)
  ffmpeg2 : Option Nat

/-- `download_video`: create the temp directory, try the mirror path,
then the engine path (checking only that the expected output path
exists), then retry the mirror path; no cleanup of the temp directory
happens on any path. -/
def downloadVideo (quality : String) (ctx : Option MirrorCtx)
    (tempDir fileId1 fileId2 : String) (o : DownloadOracles) (fs0 : FS) :
    Option String × FS :=
  let fs1 := fsMkdir fs0 tempDir
  let m1 := downloadViaMirror ctx quality tempDir fileId1 o.mirrorResp1 o.ffmpeg1 fs1
  match m1.1 with
  | some p => (some p, m1.2)
  | Option.none =>
    let fs2 := o.engineFiles.foldl (fun a e => fsWrite a e.1 e.2) m1.2
    let engineHit : Option String :=
      match o.engineFilename with
      | Option.none => Option.none
      | some fn =>
        let fp := if quality = "audio" then withSuffix fn ".mp3" else fn
        if fsExists fs2 fp then some fp else Option.none
    match engineHit with
    | some p => (some p, fs2)
    | Option.none =>
      let m2 := downloadViaMirror ctx quality tempDir fileId2 o.mirrorResp2 o.ffmpeg2 fs2
      (m2.1, m2.2)

/-- The audio candidate list of the Invidious selector branch: adaptive
formats with a truthy URL classified as audio, falling back to format
streams when none qualify. -/
def invAudioCandidates (bag : StreamBag) : List PyDict :=
  let audio0 := (urlStreams (bagGet bag.adaptiveFormats)).filter isAudioStream
  if audio0.isEmpty then (urlStreams (bagGet bag.formatStreams)).filter isAudioStream
  else audio0

/-! ### Concrete fixtures used by the counterexamples and witnesses -/

/-- An Invidious 200-response payload carrying no `title` key. -/
def titlelessInvData : PyDict := [("videoId", Val.vstr "x")]

/-- A chain run where every engine attempt and the first two fallbacks
fail, and an Invidious mirror answers with a titleless payload. -/
def titlelessChainOracles : ChainOracles :=
  { videoId := some "x"
    proxyCandidates := [Option.none]
    engineInfo := fun _ _ => Option.none
    youtubeiResp := fun _ => Option.none
    watchResp := fun _ => Option.none
    invInstances := ["https://inv.example"]
    invResp := fun _ _ => some titlelessInvData
    pipedInstances := []
    pipedResp := fun _ => Option.none }

/-- A raw engine info dict with a truthy title. -/
def titledEngineInfo : PyDict := [("id", Val.vstr "x"), ("title", Val.vstr "T")]

/-- A chain run where the very first engine attempt succeeds. -/
def engineHitChainOracles : ChainOracles :=
  { videoId := some "x"
    proxyCandidates := [Option.none]
    engineInfo := fun _ _ => some titledEngineInfo
    youtubeiResp := fun _ => Option.none
    watchResp := fun _ => Option.none
    invInstances := []
    invResp := fun _ _ => Option.none
    pipedInstances := []
    pipedResp := fun _ => Option.none }

/-- Invidious-shape audio stream whose `bitrate` is the string "9". -/
def audioStream9 : PyDict :=
  [("url", Val.vstr "u9"), ("mimeType", Val.vstr "audio/mp4"), ("bitrate", Val.vstr "9")]

/-- Invidious-shape audio stream whose `bitrate` is the string "100". -/
def audioStream100 : PyDict :=
  [("url", Val.vstr "u100"), ("mimeType", Val.vstr "audio/mp4"), ("bitrate", Val.vstr "100")]

/-- A stream bag with the two string-bitrate audio streams. -/
def stringBitrateBag : StreamBag :=
  { videoStreams := Option.none, audioStreams := Option.none
    formatStreams := some [], adaptiveFormats := some [audioStream9, audioStream100] }

/-- The mirror context an Invidious-mapped record would carry for that
bag. -/
def stringBitrateCtx : MirrorCtx :=
  { mirrorStreams := some stringBitrateBag, mirrorType := Val.vstr "invidious" }

/-- Integer-bitrate Invidious audio streams, for the witness. -/
def audioStreamA : PyDict :=
  [("url", Val.vstr "tA"), ("mimeType", Val.vstr "audio/mp4"), ("bitrate", Val.vint 64)]

/-- See `audioStreamA`. -/
def audioStreamB : PyDict :=
  [("url", Val.vstr "tB"), ("mimeType", Val.vstr "audio/mp4"), ("bitrate", Val.vint 128)]

/-- Bag with the integer-bitrate audio streams. -/
def intBitrateBag : StreamBag :=
  { videoStreams := Option.none, audioStreams := Option.none
    formatStreams := some [], adaptiveFormats := some [audioStreamA, audioStreamB] }

/-- A Piped-shape stream bag with one progressive video stream. -/
def bestVideoBag : StreamBag :=
  { videoStreams := some [[("url", Val.vstr "vurl")]], audioStreams := some []
    formatStreams := Option.none, adaptiveFormats := Option.none }

/-- Mirror context for `bestVideoBag`. -/
def bestVideoCtx : MirrorCtx :=
  { mirrorStreams := some bestVideoBag, mirrorType := Val.vstr "piped" }

/-- Download oracles where the first mirror attempt yields a 200 response
with an empty body. -/
def emptyBodyOracles : DownloadOracles :=
  { mirrorResp1 := some [], ffmpeg1 := Option.none
    engineFiles := [], engineFilename := Option.none
    mirrorResp2 := Option.none, ffmpeg2 := Option.none }

/-- Download oracles where every attempt fails. -/
def allFailOracles : DownloadOracles :=
  { mirrorResp1 := Option.none, ffmpeg1 := Option.none
    engineFiles := [], engineFilename := Option.none
    mirrorResp2 := Option.none, ffmpeg2 := Option.none }

/-- An initially empty filesystem. -/
def emptyFS : FS := { dirs := [], files := [] }

/-! ## Helper lemmas -/

theorem publicMetadata_eq_filter {α : Type} (l : List (String × α)) :
    publicMetadata (some l) =
      l.filter (fun kv => ¬ isPrefixList "__".toList kv.1.toList) := by
  cases l <;> rfl

theorem normalizeSimpleDate_isSome_eq (s : String) :
    (normalizeSimpleDate (Val.vstr s)).isSome = simpleDateAccepted s := by
  simp only [normalizeSimpleDate, simpleDateAccepted]
  by_cases h0 : stripList s.data = []
  · simp [h0]
  · rcases hsp : splitOnChar '-' (List.map (fun ch => if ch = '/' then '-' else ch)
        (stripList s.data)) with _ | ⟨a, _ | ⟨b, _ | ⟨c, _ | _⟩⟩⟩ <;>
      simp [h0, hsp] <;> split_ifs <;> simp_all

theorem charListLe_trans : ∀ as bs cs : List Char,
    charListLe as bs = true → charListLe bs cs = true → charListLe as cs = true := by
  intro as
  induction as with
  | nil => intro bs cs _ _; rfl
  | cons a as ih =>
    intro bs cs hab hbc
    cases bs with
    | nil => simp [charListLe] at hab
    | cons b bs =>
      cases cs with
      | nil => simp [charListLe] at hbc
      | cons c cs =>
        simp only [charListLe, Bool.or_eq_true, decide_eq_true_eq,
          Bool.and_eq_true] at hab hbc ⊢
        rcases hab with h1 | ⟨h1, h1r⟩ <;> rcases hbc with h2 | ⟨h2, h2r⟩
        · exact Or.inl (h1.trans h2)
        · exact Or.inl (h2 ▸ h1)
        · exact Or.inl (h1 ▸ h2)
        · exact Or.inr ⟨h1.trans h2, ih bs cs (by simpa using h1r) (by simpa using h2r)⟩

theorem charListLe_total : ∀ as bs : List Char,
    charListLe as bs = true ∨ charListLe bs as = true := by
  intro as
  induction as with
  | nil => intro bs; exact Or.inl rfl
  | cons a as ih =>
    intro bs
    cases bs with
    | nil => exact Or.inr rfl
    | cons b bs =>
      simp only [charListLe, Bool.or_eq_true, decide_eq_true_eq, Bool.and_eq_true]
      rcases Nat.lt_trichotomy a.toNat b.toNat with h | h | h
      · exact Or.inl (Or.inl h)
      · rcases ih bs with hr | hr
        · exact Or.inl (Or.inr ⟨h, by simpa using hr⟩)
        · exact Or.inr (Or.inr ⟨h.symm, by simpa using hr⟩)
      · exact Or.inr (Or.inl h)

theorem valLe_trans (a b c : Val) (hab : valLe a b = true) (hbc : valLe b c = true) :
    valLe a c = true := by
  simp only [valLe, Bool.or_eq_true, Bool.and_eq_true, decide_eq_true_eq] at hab hbc ⊢
  rcases hab with (h1 | ⟨h1r, h1n⟩) | ⟨⟨h1r, h1n⟩, h1s⟩ <;>
    rcases hbc with (h2 | ⟨h2r, h2n⟩) | ⟨⟨h2r, h2n⟩, h2s⟩
  · exact Or.inl (Or.inl (by omega))
  · exact Or.inl (Or.inl (by omega))
  · exact Or.inl (Or.inl (by omega))
  · exact Or.inl (Or.inl (by omega))
  · exact Or.inl (Or.inr ⟨by omega, by omega⟩)
  · exact Or.inl (Or.inr ⟨by omega, by omega⟩)
  · exact Or.inl (Or.inl (by omega))
  · exact Or.inl (Or.inr ⟨by omega, by omega⟩)
  · exact Or.inr ⟨⟨by omega, by omega⟩, charListLe_trans _ _ _ h1s h2s⟩

theorem valLe_total (a b : Val) : valLe a b = true ∨ valLe b a = true := by
  simp only [valLe, Bool.or_eq_true, Bool.and_eq_true, decide_eq_true_eq]
  rcases Nat.lt_trichotomy (valRank a) (valRank b) with h | h | h
  · exact Or.inl (Or.inl (Or.inl h))
  · rcases Int.lt_trichotomy (valNum a) (valNum b) with hn | hn | hn
    · exact Or.inl (Or.inl (Or.inr ⟨h, hn⟩))
    · rcases charListLe_total (valStr a).toList (valStr b).toList with hs | hs
      · exact Or.inl (Or.inr ⟨⟨h, hn⟩, hs⟩)
      · exact Or.inr (Or.inr ⟨⟨h.symm, hn.symm⟩, hs⟩)
    · exact Or.inr (Or.inl (Or.inr ⟨h.symm, hn⟩))
  · exact Or.inr (Or.inl (Or.inl h))

theorem stableInsert_perm {α : Type} (le : α → α → Bool) (a : α) (l : List α) :
    List.Perm (stableInsert le a l) (a :: l) := by
  induction l with
  | nil => exact List.Perm.refl _
  | cons b t ih =>
    simp only [stableInsert]
    split_ifs with h
    · exact List.Perm.refl _
    · exact (ih.cons b).trans (List.Perm.swap a b t)

theorem stableSortBy_perm {α : Type} (le : α → α → Bool) (l : List α) :
    List.Perm (stableSortBy le l) l := by
  induction l with
  | nil => exact List.Perm.refl _
  | cons a t ih => exact (stableInsert_perm le a _).trans (ih.cons a)

theorem stableInsert_pairwise {α : Type} (le : α → α → Bool)
    (htrans : ∀ a b c, le a b = true → le b c = true → le a c = true)
    (htot : ∀ a b, le a b = true ∨ le b a = true)
    (a : α) (l : List α) (hl : l.Pairwise (fun x y => le x y = true)) :
    (stableInsert le a l).Pairwise (fun x y => le x y = true) := by
  induction l with
  | nil => simp [stableInsert]
  | cons b t ih =>
    obtain ⟨hb, ht⟩ := List.pairwise_cons.mp hl
    simp only [stableInsert]
    split_ifs with hab
    · refine List.pairwise_cons.mpr ⟨?_, hl⟩
      intro y hy
      rcases List.mem_cons.mp hy with rfl | hyt
      · exact hab
      · exact htrans a b y hab (hb y hyt)
    · have hba : le b a = true := (htot a b).resolve_left hab
      refine List.pairwise_cons.mpr ⟨?_, ih ht⟩
      intro y hy
      rcases List.mem_cons.mp ((stableInsert_perm le a t).mem_iff.mp hy) with rfl | hyt
      · exact hba
      · exact hb y hyt

theorem stableSortBy_pairwise {α : Type} (le : α → α → Bool)
    (htrans : ∀ a b c, le a b = true → le b c = true → le a c = true)
    (htot : ∀ a b, le a b = true ∨ le b a = true) (l : List α) :
    (stableSortBy le l).Pairwise (fun x y => le x y = true) := by
  induction l with
  | nil => simp [stableSortBy]
  | cons a t ih => exact stableInsert_pairwise le htrans htot a _ ih

theorem stableSortBy_head_max {α : Type} (le : α → α → Bool)
    (htrans : ∀ a b c, le a b = true → le b c = true → le a c = true)
    (htot : ∀ a b, le a b = true ∨ le b a = true)
    {xs : List α} {s : α} {rest : List α} (h : stableSortBy le xs = s :: rest) :
    s ∈ xs ∧ ∀ t ∈ xs, le s t = true := by
  have hperm := stableSortBy_perm le xs
  refine ⟨hperm.mem_iff.mp (h ▸ List.mem_cons_self s rest), ?_⟩
  intro t ht
  have ht2 : t ∈ s :: rest := h ▸ hperm.mem_iff.mpr ht
  rcases List.mem_cons.mp ht2 with rfl | htr
  · rcases htot t t with h' | h' <;> exact h'
  · have hp := stableSortBy_pairwise le htrans htot xs
    rw [h] at hp
    exact List.rel_of_pairwise_cons hp htr

theorem stableSortBy_nonempty {α : Type} (le : α → α → Bool) {xs : List α}
    (h : xs ≠ []) : ∃ s rest, stableSortBy le xs = s :: rest := by
  cases heq : stableSortBy le xs with
  | nil =>
    exfalso
    have hp := stableSortBy_perm le xs
    rw [heq] at hp
    exact h hp.symm.eq_nil
  | cons s rest => exact ⟨s, rest, rfl⟩

theorem pyDedup_eq_specDedup (l : List (Option String)) (seen : List String) :
    pyDedupKeyed l seen =
      specDedupKeyed (l.filter (fun c => decide (proxyKey c ∉ seen))) := by
  induction l generalizing seen with
  | nil => simp [pyDedupKeyed, specDedupKeyed]
  | cons c rest ih =>
    by_cases hc : proxyKey c ∈ seen
    · rw [pyDedupKeyed, if_pos hc]
      simp only [List.filter_cons]
      rw [if_neg (by simpa using hc)]
      exact ih seen
    · rw [pyDedupKeyed, if_neg hc]
      simp only [List.filter_cons]
      rw [if_pos (by simpa using hc), specDedupKeyed]
      rw [ih (proxyKey c :: seen), List.filter_filter]
      congr 1
      refine congrArg specDedupKeyed ?_
      apply List.filter_congr
      intro d _
      simp [List.mem_cons, not_or, Bool.and_comm, eq_comm]

theorem specDedup_sublist (l : List (Option String)) :
    List.Sublist (specDedupKeyed l) l := by
  induction l using specDedupKeyed.induct with
  | case1 => simp [specDedupKeyed]
  | case2 c rest ih =>
    rw [specDedupKeyed]
    exact (ih.trans (List.filter_sublist rest)).cons₂ c

theorem specDedup_mem_sublist {d : Option String} {l : List (Option String)}
    (h : d ∈ specDedupKeyed l) : d ∈ l :=
  (specDedup_sublist l).mem h

theorem specDedup_keys_nodup (l : List (Option String)) :
    ((specDedupKeyed l).map proxyKey).Nodup := by
  induction l using specDedupKeyed.induct with
  | case1 => simp [specDedupKeyed]
  | case2 c rest ih =>
    rw [specDedupKeyed]
    simp only [List.map_cons, List.nodup_cons]
    refine ⟨?_, ih⟩
    intro hk
    obtain ⟨d, hd, hkey⟩ := List.mem_map.mp hk
    have hdf := specDedup_mem_sublist hd
    have := List.of_mem_filter hdf
    simp only [decide_eq_true_eq] at this
    exact this hkey

theorem specDedup_key_mem (l : List (Option String)) :
    ∀ c ∈ l, proxyKey c ∈ (specDedupKeyed l).map proxyKey := by
  induction l using specDedupKeyed.induct with
  | case1 => intro c hc; cases hc
  | case2 c rest ih =>
    intro d hd
    rw [specDedupKeyed, List.map_cons]
    rcases List.mem_cons.mp hd with hdc | hdr
    · rw [hdc]
      exact List.mem_cons_self _ _
    · by_cases hk : proxyKey d = proxyKey c
      · rw [hk]
        exact List.mem_cons_self _ _
      · refine List.mem_cons.mpr (Or.inr ?_)
        exact ih d (List.mem_filter.mpr ⟨hdr, by simpa using hk⟩)

theorem specDedup_ne_nil {l : List (Option String)} (h : l ≠ []) :
    specDedupKeyed l ≠ [] := by
  cases l with
  | nil => exact absurd rfl h
  | cons c rest =>
    rw [specDedupKeyed]
    exact List.cons_ne_nil _ _

theorem buildProxyCandidates_eq (forced : Option String) (pool : List String)
    (allowDirect includeDirect freeEnabled : Bool) (freeProxy : Option String) :
    buildProxyCandidates forced pool allowDirect includeDirect freeEnabled freeProxy =
      (if (specDedupKeyed (rawProxyCandidates forced pool allowDirect includeDirect
          freeEnabled freeProxy)).isEmpty then [Option.none]
       else specDedupKeyed (rawProxyCandidates forced pool allowDirect includeDirect
          freeEnabled freeProxy)) := by
  unfold buildProxyCandidates
  rw [pyDedup_eq_specDedup]
  have hf : (rawProxyCandidates forced pool allowDirect includeDirect freeEnabled
      freeProxy).filter (fun c => decide (proxyKey c ∉ ([] : List String))) =
      rawProxyCandidates forced pool allowDirect includeDirect freeEnabled freeProxy := by
    simp
  rw [hf]

/-! ## Claim theorems -/

theorem runChain_fst (l : List (Call × Option Meta)) :
    (runChain l).1 = (l.map Prod.snd).findSome? id := by
  induction l with
  | nil => rfl
  | cons p rest ih =>
    obtain ⟨c, r⟩ := p
    cases r with
    | some m => simp [runChain, List.findSome?_cons]
    | none => simp [runChain, List.findSome?_cons, ih]

theorem runChain_snd (l : List (Call × Option Meta)) :
    (runChain l).2 =
      (l.map Prod.fst).take ((l.map Prod.snd).findIdx Option.isSome + 1) := by
  induction l with
  | nil => rfl
  | cons p rest ih =>
    obtain ⟨c, r⟩ := p
    cases r with
    | some m => simp [runChain, List.findIdx_cons]
    | none => simp [runChain, List.findIdx_cons, ih]

theorem runChain_append_some {l₁ : List (Call × Option Meta)} {m : Meta}
    (l₂ : List (Call × Option Meta)) (h : (runChain l₁).1 = some m) :
    runChain (l₁ ++ l₂) = (some m, (runChain l₁).2) := by
  induction l₁ with
  | nil => simp [runChain] at h
  | cons p rest ih =>
    obtain ⟨c, r⟩ := p
    cases r with
    | some m2 =>
      have hm : m2 = m := by simpa [runChain] using h
      subst hm
      simp [runChain]
    | none =>
      have h2 : (runChain rest).1 = some m := by simpa [runChain] using h
      simp [runChain, ih h2]

theorem runChain_append_none {l₁ : List (Call × Option Meta)}
    (l₂ : List (Call × Option Meta)) (h : (runChain l₁).1 = Option.none) :
    runChain (l₁ ++ l₂) = ((runChain l₂).1, (runChain l₁).2 ++ (runChain l₂).2) := by
  induction l₁ with
  | nil => simp [runChain]
  | cons p rest ih =>
    obtain ⟨c, r⟩ := p
    cases r with
    | some m2 => simp [runChain] at h
    | none =>
      have h2 : (runChain rest).1 = Option.none := by simpa [runChain] using h
      simp [runChain, ih h2]

theorem engineStratLoop_eq (f : Option String → Nat → Option PyDict)
    (p : Option String) (idxs : List Nat) :
    engineStratLoop f p idxs =
      runChain (idxs.map fun i => (Call.engine p i, engineGate (f p i) p i)) := by
  induction idxs with
  | nil => rfl
  | cons i rest ih =>
    cases hg : engineGate (f p i) p i <;> simp [engineStratLoop, runChain, hg, ih]

theorem engineProxyLoop_eq (f : Option String → Nat → Option PyDict)
    (ps : List (Option String)) :
    engineProxyLoop f ps =
      runChain (ps.flatMap fun p => (List.range 4).map fun i =>
        (Call.engine p i, engineGate (f p i) p i)) := by
  induction ps with
  | nil => rfl
  | cons p rest ih =>
    rw [List.flatMap_cons]
    cases hr : (runChain ((List.range 4).map fun i =>
        (Call.engine p i, engineGate (f p i) p i))).1 with
    | some m =>
      rw [runChain_append_some _ hr]
      simp only [engineProxyLoop, engineStratLoop_eq f p (List.range 4), hr]
    | none =>
      rw [runChain_append_none _ hr]
      simp only [engineProxyLoop, engineStratLoop_eq f p (List.range 4), hr, ih]

theorem getFull_eq_runChain (o : ChainOracles) :
    getFullVideoMetadata o = runChain (chainCalls o) := by
  unfold getFullVideoMetadata chainCalls
  cases hE : (engineProxyLoop o.engineInfo o.proxyCandidates).1 with
  | some m =>
    have hE2 : (runChain (o.proxyCandidates.flatMap fun p => (List.range 4).map fun i =>
        (Call.engine p i, engineGate (o.engineInfo p i) p i))).1 = some m := by
      rw [← engineProxyLoop_eq]
      exact hE
    rw [runChain_append_some _ hE2, ← engineProxyLoop_eq]
    simp [hE]
  | none =>
    have hE2 : (runChain (o.proxyCandidates.flatMap fun p => (List.range 4).map fun i =>
        (Call.engine p i, engineGate (o.engineInfo p i) p i))).1 = Option.none := by
      rw [← engineProxyLoop_eq]
      exact hE
    rw [runChain_append_none _ hE2, ← engineProxyLoop_eq]
    cases hy : fetchMetadataFromYoutubei o.videoId o.proxyCandidates o.youtubeiResp with
    | some m => simp [runChain, hE, hy]
    | none =>
      cases hw : fetchMetadataFromWatchHtml o.videoId o.proxyCandidates o.watchResp with
      | some m => simp [runChain, hE, hy, hw]
      | none =>
        cases hi : fetchMetadataFromInvidious o.videoId o.invInstances o.proxyCandidates
            o.invResp with
        | some m => simp [runChain, hE, hy, hw, hi]
        | none =>
          cases hp : fetchMetadataFromPiped o.videoId o.pipedInstances o.pipedResp with
          | some m => simp [runChain, hE, hy, hw, hi, hp]
          | none => simp [runChain, hE, hy, hw, hi, hp]

theorem engineGate_title {info : Option PyDict} {p : Option String} {i : Nat} {m : Meta}
    (h : engineGate info p i = some m) : pyTruthy m.title = true := by
  cases info with
  | none => simp [engineGate] at h
  | some d =>
    simp only [engineGate] at h
    by_cases hc : List.isEmpty d = true ∨ ¬ pyTruthy (dget d "title") = true
    · rw [if_pos hc] at h
      exact absurd h (by simp)
    · rw [if_neg hc] at h
      rcases not_or.mp hc with ⟨-, ht⟩
      have hm := Option.some.inj h
      subst hm
      simpa [engineMeta] using ht

theorem engineStratLoop_fst_title {f : Option String → Nat → Option PyDict}
    {p : Option String} {idxs : List Nat} {m : Meta}
    (h : (engineStratLoop f p idxs).1 = some m) : pyTruthy m.title = true := by
  induction idxs with
  | nil => simp [engineStratLoop] at h
  | cons i rest ih =>
    simp only [engineStratLoop] at h
    cases hg : engineGate (f p i) p i with
    | some m2 =>
      rw [hg] at h
      simp only [Option.some.injEq] at h
      exact h ▸ engineGate_title hg
    | none =>
      rw [hg] at h
      exact ih h

theorem engineProxyLoop_fst_title {f : Option String → Nat → Option PyDict}
    {ps : List (Option String)} {m : Meta}
    (h : (engineProxyLoop f ps).1 = some m) : pyTruthy m.title = true := by
  induction ps with
  | nil => simp [engineProxyLoop] at h
  | cons p rest ih =>
    simp only [engineProxyLoop] at h
    cases hr : (engineStratLoop f p (List.range 4)).1 with
    | some m2 =>
      rw [hr] at h
      simp only [Option.some.injEq] at h
      exact h ▸ engineStratLoop_fst_title hr
    | none =>
      rw [hr] at h
      exact ih h

theorem mapPlayer_title {pd : Option PlayerData} {proxy : Option String}
    {strategy : String} {m : Meta}
    (h : mapPlayerResponseMetadata pd proxy strategy = some m) :
    pyTruthy m.title = true := by
  cases pd with
  | none => simp [mapPlayerResponseMetadata] at h
  | some p =>
    simp only [mapPlayerResponseMetadata] at h
    by_cases hc : ¬ pyTruthy (dget p.videoDetails "title") = true
    · rw [if_pos hc] at h
      exact absurd h (by simp)
    · rw [if_neg hc] at h
      have hm := Option.some.inj h
      subst hm
      simpa using not_not.mp hc

theorem playerLoop_title {strategy : String} {resp : Option String → Option PlayerData}
    {ps : List (Option String)} {m : Meta}
    (h : playerLoop strategy resp ps = some m) : pyTruthy m.title = true := by
  induction ps with
  | nil => simp [playerLoop] at h
  | cons p rest ih =>
    simp only [playerLoop] at h
    cases hm : mapPlayerResponseMetadata (resp p) p strategy with
    | some m2 =>
      rw [hm] at h
      simp only [Option.some.injEq] at h
      exact h ▸ mapPlayer_title hm
    | none =>
      rw [hm] at h
      exact ih h

theorem fetchYoutubei_title {vid : Option String} {cands : List (Option String)}
    {resp : Option String → Option PlayerData} {m : Meta}
    (h : fetchMetadataFromYoutubei vid cands resp = some m) : pyTruthy m.title = true := by
  cases vid with
  | none => simp [fetchMetadataFromYoutubei] at h
  | some v => exact playerLoop_title (by simpa [fetchMetadataFromYoutubei] using h)

theorem fetchWatchHtml_title {vid : Option String} {cands : List (Option String)}
    {resp : Option String → Option PlayerData} {m : Meta}
    (h : fetchMetadataFromWatchHtml vid cands resp = some m) : pyTruthy m.title = true := by
  cases vid with
  | none => simp [fetchMetadataFromWatchHtml] at h
  | some v => exact playerLoop_title (by simpa [fetchMetadataFromWatchHtml] using h)

theorem invidiousProxyLoop_source {inst : String}
    {resp : String → Option String → Option PyDict} {cands : List (Option String)} {m : Meta}
    (h : invidiousProxyLoop inst resp cands = some m) : m.source = Val.vstr "invidious" := by
  induction cands with
  | nil => simp [invidiousProxyLoop] at h
  | cons p rest ih =>
    simp only [invidiousProxyLoop] at h
    cases hr : resp inst p with
    | some data =>
      rw [hr] at h
      have hm := Option.some.inj h
      rw [← hm]
    | none =>
      rw [hr] at h
      exact ih h

theorem fetchInvidious_source {vid : Option String} {insts : List String}
    {cands : List (Option String)} {resp : String → Option String → Option PyDict} {m : Meta}
    (h : fetchMetadataFromInvidious vid insts cands resp = some m) :
    m.source = Val.vstr "invidious" := by
  cases vid with
  | none => simp [fetchMetadataFromInvidious] at h
  | some v =>
    simp only [fetchMetadataFromInvidious] at h
    induction insts with
    | nil => simp [invidiousLoop] at h
    | cons inst rest ih =>
      simp only [invidiousLoop] at h
      cases hr : invidiousProxyLoop inst resp cands with
      | some m2 =>
        rw [hr] at h
        have hm := Option.some.inj h
        exact hm ▸ invidiousProxyLoop_source hr
      | none =>
        rw [hr] at h
        exact ih h

theorem fetchPiped_source {vid : Option String} {insts : List String}
    {resp : String → Option PyDict} {m : Meta}
    (h : fetchMetadataFromPiped vid insts resp = some m) : m.source = Val.vstr "piped" := by
  cases vid with
  | none => simp [fetchMetadataFromPiped] at h
  | some v =>
    simp only [fetchMetadataFromPiped] at h
    induction insts with
    | nil => simp [pipedLoop] at h
    | cons inst rest ih =>
      cases hr : resp inst with
      | some data =>
        by_cases hd : data.isEmpty = true
        · simp only [pipedLoop, hr] at h
          rw [if_pos hd] at h
          exact ih h
        · simp only [pipedLoop, hr] at h
          rw [if_neg hd] at h
          have hm := Option.some.inj h
          rw [← hm]
          rfl
      | none =>
        simp only [pipedLoop, hr] at h
        exact ih h

theorem select_piped_audio (bag : StreamBag) :
    selectMirrorStream (some { mirrorStreams := some bag, mirrorType := Val.vstr "piped" })
      "audio" =
      (match sortDescBy audioScore (urlStreams (bagGet bag.audioStreams)) with
       | s :: _ => some (dset s "__mirror_type" (Val.vstr "piped"))
       | [] => Option.none) := by
  rcases h : urlStreams (bagGet bag.audioStreams) with _ | ⟨s, t⟩
  · simp [selectMirrorStream, pyOr, pyTruthy, h, sortDescBy, stableSortBy]
  · simp [selectMirrorStream, pyOr, pyTruthy, h]

theorem select_inv_audio (bag : StreamBag) :
    selectMirrorStream (some { mirrorStreams := some bag, mirrorType := Val.vstr "invidious" })
      "audio" =
      (match sortDescByVal invAudioKey (invAudioCandidates bag) with
       | s :: _ => some s
       | [] => Option.none) := by
  by_cases hA : (List.filter isAudioStream (urlStreams (bagGet bag.adaptiveFormats))).isEmpty
  · rcases hB : List.filter isAudioStream (urlStreams (bagGet bag.formatStreams)) with _ | ⟨s, t⟩ <;>
      simp [selectMirrorStream, invAudioCandidates, pyOr, pyTruthy, hA, hB,
        sortDescByVal, stableSortBy]
  · rcases hB : List.filter isAudioStream (urlStreams (bagGet bag.adaptiveFormats)) with _ | ⟨s, t⟩
    · rw [hB] at hA
      simp at hA
    · simp [selectMirrorStream, invAudioCandidates, pyOr, pyTruthy, hA, hB,
        sortDescByVal, stableSortBy]

/-- C3: `_build_proxy_candidates` returns a duplicate-free list
(deduplicated by the normalized key `proxy or "DIRECT"`, first occurrence
kept, order preserved — it equals the spec-side first-occurrence dedup of
the raw priority list forced → pool → direct → free), and it is never
empty: when no candidate survives it is the single direct entry. -/
theorem build_proxy_candidates_dedup (forced : Option String) (pool : List String)
    (allowDirect includeDirect freeEnabled : Bool) (freeProxy : Option String) :
    buildProxyCandidates forced pool allowDirect includeDirect freeEnabled freeProxy ≠ [] ∧
    (buildProxyCandidates forced pool allowDirect includeDirect freeEnabled freeProxy).Nodup ∧
    ((buildProxyCandidates forced pool allowDirect includeDirect freeEnabled
        freeProxy).map proxyKey).Nodup ∧
    (rawProxyCandidates forced pool allowDirect includeDirect freeEnabled freeProxy = [] →
      buildProxyCandidates forced pool allowDirect includeDirect freeEnabled freeProxy =
        [Option.none]) ∧
    (rawProxyCandidates forced pool allowDirect includeDirect freeEnabled freeProxy ≠ [] →
      buildProxyCandidates forced pool allowDirect includeDirect freeEnabled freeProxy =
        specDedupKeyed (rawProxyCandidates forced pool allowDirect includeDirect
          freeEnabled freeProxy)) ∧
    (rawProxyCandidates forced pool allowDirect includeDirect freeEnabled freeProxy ≠ [] →
      List.Sublist
        (buildProxyCandidates forced pool allowDirect includeDirect freeEnabled freeProxy)
        (rawProxyCandidates forced pool allowDirect includeDirect freeEnabled freeProxy)) ∧
    (∀ c ∈ rawProxyCandidates forced pool allowDirect includeDirect freeEnabled freeProxy,
      proxyKey c ∈ (buildProxyCandidates forced pool allowDirect includeDirect
        freeEnabled freeProxy).map proxyKey) := by
  rw [buildProxyCandidates_eq]
  by_cases hraw : rawProxyCandidates forced pool allowDirect includeDirect freeEnabled
      freeProxy = []
  · rw [hraw]
    refine ⟨by simp [specDedupKeyed], by simp [specDedupKeyed], by simp [specDedupKeyed],
      fun _ => by simp [specDedupKeyed], fun h => absurd rfl h, fun h => absurd rfl h,
      fun c hc => absurd hc (by simp)⟩
  · have hne := specDedup_ne_nil hraw
    have hemp : (specDedupKeyed (rawProxyCandidates forced pool allowDirect includeDirect
        freeEnabled freeProxy)).isEmpty = false := by
      simpa [List.isEmpty_iff] using hne
    rw [hemp]
    simp only [Bool.false_eq_true, if_false]
    have hkeys := specDedup_keys_nodup (rawProxyCandidates forced pool allowDirect
      includeDirect freeEnabled freeProxy)
    refine ⟨hne, hkeys.of_map proxyKey, hkeys, fun h => absurd h hraw, fun _ => by trivial,
      fun _ => specDedup_sublist _, fun c hc => specDedup_key_mem _ c hc⟩

/-- C3 witness: a configuration with an overlapping forced/pool entry:
the result is non-empty, deduplicated, and equals the spec-side dedup. -/
theorem build_proxy_candidates_dedup_witness :
    buildProxyCandidates (some "http://f") ["http://f", "http://p"] true true true
      (some "http://q") ≠ [] ∧
    buildProxyCandidates (some "http://f") ["http://f", "http://p"] true true true
      (some "http://q") =
      specDedupKeyed (rawProxyCandidates (some "http://f") ["http://f", "http://p"]
        true true true (some "http://q")) := by
  have h := build_proxy_candidates_dedup (some "http://f") ["http://f", "http://p"]
    true true true (some "http://q")
  exact ⟨h.1, h.2.2.2.2.1 (by decide)⟩

theorem fsExists_fsWrite_self (fs : FS) (p : String) (n : Nat) :
    fsExists (fsWrite fs p n) p = true := by
  simp [fsExists, fsWrite]

theorem fsExists_fsUnlink_ne (fs : FS) (p q : String) (h : q ≠ p) :
    fsExists (fsUnlink fs p) q = fsExists fs q := by
  simp only [fsExists, fsUnlink]
  rw [Bool.eq_iff_iff]
  simp only [List.any_eq_true, List.mem_filter, decide_eq_true_eq]
  constructor
  · rintro ⟨e, ⟨he, -⟩, hq⟩
    exact ⟨e, he, hq⟩
  · rintro ⟨e, he, hq⟩
    exact ⟨e, ⟨he, by rw [hq]; exact h⟩, hq⟩

theorem downloadStream_exists (stream : PyDict) (tempDir fileId : String)
    (resp : Option (List Nat)) (fs : FS) (p : String)
    (h : (downloadStreamViaRequests stream tempDir fileId resp fs).1 = some p) :
    fsExists (downloadStreamViaRequests stream tempDir fileId resp fs).2 p = true ∧
    p = tempDir ++ "/" ++ fileId ++ "." ++ inferExtension stream "mp4" := by
  unfold downloadStreamViaRequests at h ⊢
  by_cases hu : ¬ pyTruthy (dget stream "url") = true
  · rw [if_pos hu] at h
    simp at h
  · rw [if_neg hu] at h ⊢
    cases resp with
    | none => simp at h
    | some chunks =>
      simp only [Option.some.injEq] at h
      subst h
      exact ⟨fsExists_fsWrite_self _ _ _, rfl⟩

theorem downloadStream_dirs (stream : PyDict) (tempDir fileId : String)
    (resp : Option (List Nat)) (fs : FS) :
    (downloadStreamViaRequests stream tempDir fileId resp fs).2.dirs = fs.dirs := by
  unfold downloadStreamViaRequests
  by_cases hu : ¬ pyTruthy (dget stream "url") = true
  · simp [hu]
  · cases resp <;> simp [hu, fsUnlink, fsWrite]

theorem convert_dirs (sourcePath : String) (ffmpegOut : Option Nat) (fs : FS) :
    (convertAudioToMp3 sourcePath ffmpegOut fs).2.dirs = fs.dirs := by
  cases ffmpegOut <;> simp [convertAudioToMp3, fsUnlink, fsWrite]

theorem downloadViaMirror_dirs (ctx : Option MirrorCtx)
    (quality tempDir fileId : String) (resp : Option (List Nat))
    (ffmpegOut : Option Nat) (fs : FS) :
    (downloadViaMirror ctx quality tempDir fileId resp ffmpegOut fs).2.dirs = fs.dirs := by
  rcases hs : selectMirrorStream ctx quality with _ | stream
  · simp [downloadViaMirror, hs]
  · simp only [downloadViaMirror, hs]
    cases hr1 : (downloadStreamViaRequests stream tempDir fileId resp fs).1 with
    | none => simp [hr1, downloadStream_dirs]
    | some q =>
      simp only [hr1]
      by_cases ha : quality = "audio"
      · rw [if_pos ha]
        simp [convert_dirs, downloadStream_dirs]
      · rw [if_neg ha]
        simp [downloadStream_dirs]

theorem foldl_fsWrite_dirs (l : List (String × Nat)) (fs : FS) :
    (l.foldl (fun a e => fsWrite a e.1 e.2) fs).dirs = fs.dirs := by
  induction l generalizing fs with
  | nil => rfl
  | cons e rest ih =>
    rw [List.foldl_cons, ih]
    rfl

theorem downloadVideo_dirs (quality : String) (ctx : Option MirrorCtx)
    (tempDir f1 f2 : String) (o : DownloadOracles) (fs : FS) :
    (downloadVideo quality ctx tempDir f1 f2 o fs).2.dirs = (fsMkdir fs tempDir).dirs := by
  unfold downloadVideo
  cases hm1 : (downloadViaMirror ctx quality tempDir f1 o.mirrorResp1 o.ffmpeg1
      (fsMkdir fs tempDir)).1 with
  | some p => simp [hm1, downloadViaMirror_dirs]
  | none =>
    simp only [hm1]
    have hfold := foldl_fsWrite_dirs o.engineFiles
      (downloadViaMirror ctx quality tempDir f1 o.mirrorResp1 o.ffmpeg1 (fsMkdir fs tempDir)).2
    cases hfn : o.engineFilename with
    | none =>
      simp only [hfn]
      rw [downloadViaMirror_dirs, hfold, downloadViaMirror_dirs]
    | some fn =>
      simp only [hfn]
      by_cases hex : fsExists (o.engineFiles.foldl (fun a e => fsWrite a e.1 e.2)
          (downloadViaMirror ctx quality tempDir f1 o.mirrorResp1 o.ffmpeg1
            (fsMkdir fs tempDir)).2)
          (if quality = "audio" then withSuffix fn ".mp3" else fn) = true
      · simp only [hex, if_true]
        rw [hfold, downloadViaMirror_dirs]
      · simp only [hex]
        simp only [Bool.false_eq_true, if_false]
        rw [downloadViaMirror_dirs, hfold, downloadViaMirror_dirs]

theorem downloadViaMirror_exists (ctx : Option MirrorCtx)
    (quality tempDir fileId : String) (resp : Option (List Nat))
    (ffmpegOut : Option Nat) (fs : FS) (p : String)
    (hmp : ∀ stream, selectMirrorStream ctx quality = some stream → quality = "audio" →
      withSuffix (tempDir ++ "/" ++ fileId ++ "." ++ inferExtension stream "mp4") ".mp3" ≠
        tempDir ++ "/" ++ fileId ++ "." ++ inferExtension stream "mp4")
    (h : (downloadViaMirror ctx quality tempDir fileId resp ffmpegOut fs).1 = some p) :
    fsExists (downloadViaMirror ctx quality tempDir fileId resp ffmpegOut fs).2 p = true := by
  rcases hs : selectMirrorStream ctx quality with _ | stream
  · simp [downloadViaMirror, hs] at h
  · simp only [downloadViaMirror, hs] at h ⊢
    cases hr1 : (downloadStreamViaRequests stream tempDir fileId resp fs).1 with
    | none => simp [hr1] at h
    | some q =>
      obtain ⟨hex, hq⟩ := downloadStream_exists stream tempDir fileId resp fs q hr1
      simp only [hr1] at h ⊢
      by_cases ha : quality = "audio"
      · rw [if_pos ha] at h ⊢
        cases ffmpegOut with
        | none =>
          simp only [convertAudioToMp3, Option.some.injEq] at h ⊢
          rw [← h]
          exact hex
        | some size =>
          simp only [convertAudioToMp3, Option.some.injEq] at h ⊢
          rw [← h]
          have hne : withSuffix q ".mp3" ≠ q := by
            rw [hq]
            exact hmp stream hs ha
          rw [fsExists_fsUnlink_ne _ _ _ hne]
          exact fsExists_fsWrite_self _ _ _
      · rw [if_neg ha] at h ⊢
        simp only [Option.some.injEq] at h
        rw [← h]
        exact hex

/-- C5 (amended): whenever `download_video` returns a path, that path
refers to an existing file, on the mirror path (first attempt and
retry), the engine path (guarded by an explicit existence check), and
the audio-conversion path (provided the converted name differs from the
downloaded temp file, i.e. the mirror stream is not already an mp3).
The code performs no size check, so the file need not be non-empty. -/
theorem download_success_path_exists (quality : String) (ctx : Option MirrorCtx)
    (tempDir f1 f2 : String) (o : DownloadOracles) (fs : FS) (p : String)
    (hmp1 : ∀ stream, selectMirrorStream ctx quality = some stream → quality = "audio" →
      withSuffix (tempDir ++ "/" ++ f1 ++ "." ++ inferExtension stream "mp4") ".mp3" ≠
        tempDir ++ "/" ++ f1 ++ "." ++ inferExtension stream "mp4")
    (hmp2 : ∀ stream, selectMirrorStream ctx quality = some stream → quality = "audio" →
      withSuffix (tempDir ++ "/" ++ f2 ++ "." ++ inferExtension stream "mp4") ".mp3" ≠
        tempDir ++ "/" ++ f2 ++ "." ++ inferExtension stream "mp4")
    (h : (downloadVideo quality ctx tempDir f1 f2 o fs).1 = some p) :
    fsExists (downloadVideo quality ctx tempDir f1 f2 o fs).2 p = true := by
  unfold downloadVideo at h ⊢
  cases hm1 : (downloadViaMirror ctx quality tempDir f1 o.mirrorResp1 o.ffmpeg1
      (fsMkdir fs tempDir)).1 with
  | some q =>
    simp only [hm1, Option.some.injEq] at h ⊢
    rw [← h]
    exact downloadViaMirror_exists ctx quality tempDir f1 o.mirrorResp1 o.ffmpeg1
      (fsMkdir fs tempDir) q hmp1 hm1
  | none =>
    simp only [hm1] at h ⊢
    cases hfn : o.engineFilename with
    | some fn =>
      simp only [hfn] at h ⊢
      by_cases hex : fsExists (o.engineFiles.foldl (fun a e => fsWrite a e.1 e.2)
          (downloadViaMirror ctx quality tempDir f1 o.mirrorResp1 o.ffmpeg1
            (fsMkdir fs tempDir)).2)
          (if quality = "audio" then withSuffix fn ".mp3" else fn) = true
      · simp only [hex, if_true, Option.some.injEq] at h ⊢
        rw [← h]
        exact hex
      · simp only [hex] at h ⊢
        simp only [Bool.false_eq_true, if_false] at h ⊢
        exact downloadViaMirror_exists ctx quality tempDir f2 o.mirrorResp2 o.ffmpeg2
          _ p hmp2 h
    | none =>
      simp only [hfn] at h ⊢
      exact downloadViaMirror_exists ctx quality tempDir f2 o.mirrorResp2 o.ffmpeg2
        _ p hmp2 h

/-- C5 witness: the existence guarantee at a concrete successful run
(quality `best`, so the audio hypotheses hold vacuously). -/
theorem download_success_path_exists_witness :
    fsExists (downloadVideo "best" (some bestVideoCtx) "/tmp/yt" "id1" "id2"
      emptyBodyOracles emptyFS).2 "/tmp/yt/id1.mp4" = true :=
  download_success_path_exists "best" (some bestVideoCtx) "/tmp/yt" "id1" "id2"
    emptyBodyOracles emptyFS "/tmp/yt/id1.mp4"
    (fun _ _ hq => absurd hq (by decide))
    (fun _ _ hq => absurd hq (by decide))
    (by decide)

/-- C5 counterexample: a mirror 200 response with an empty body yields a
zero-byte file that `download_video` returns as a success — the claim
that the returned path always has size greater than zero is false. -/
theorem download_success_zero_size :
    (downloadVideo "best" (some bestVideoCtx) "/tmp/yt" "id1" "id2" emptyBodyOracles
      emptyFS).1 = some "/tmp/yt/id1.mp4" ∧
    fsSize (downloadVideo "best" (some bestVideoCtx) "/tmp/yt" "id1" "id2" emptyBodyOracles
      emptyFS).2 "/tmp/yt/id1.mp4" = some 0 := by
  decide

/-- C6 (amended): whenever `download_video` terminates in failure, the
temporary directory it created at the start of the call still exists —
the function performs no directory cleanup on any path (only partial
mirror files are unlinked); directory removal happens only in the HTTP
handler after a successful upload. -/
theorem download_failure_tempdir_not_removed (quality : String) (ctx : Option MirrorCtx)
    (tempDir f1 f2 : String) (o : DownloadOracles) (fs : FS)
    (_h : (downloadVideo quality ctx tempDir f1 f2 o fs).1 = Option.none) :
    tempDir ∈ (downloadVideo quality ctx tempDir f1 f2 o fs).2.dirs := by
  rw [downloadVideo_dirs]
  unfold fsMkdir
  by_cases hd : tempDir ∈ fs.dirs
  · simp [hd]
  · simp [hd]

/-- C6 witness: the amended theorem at a concrete run where every
attempt fails. -/
theorem download_failure_tempdir_not_removed_witness :
    "/tmp/yt" ∈ (downloadVideo "best" Option.none "/tmp/yt" "id1" "id2" allFailOracles
      emptyFS).2.dirs :=
  download_failure_tempdir_not_removed "best" Option.none "/tmp/yt" "id1" "id2"
    allFailOracles emptyFS (by decide)

/-- C6 counterexample: a terminal failure (no mirror context, engine
raising, retry failing) after which the created temp directory is still
present in the filesystem state — the claim that it has been removed is
false. -/
theorem download_failure_tempdir_remains :
    (downloadVideo "best" Option.none "/tmp/yt2" "id1" "id2" allFailOracles emptyFS).1 =
      Option.none ∧
    (downloadVideo "best" Option.none "/tmp/yt2" "id1" "id2" allFailOracles
      emptyFS).2.dirs = ["/tmp/yt2"] := by
  decide

/-- C1: `get_full_video_metadata` walks the fixed priority sequence —
every (proxy candidate × 4 engine profiles) attempt in proxy-major
order, then the internal player API, the watch-page scrape, the
Invidious mirrors, and the Piped mirrors (the order `chainCalls`
spells out) — its result is the first success in that sequence, and its
invocation trace is exactly the prefix of the sequence up to and
including the first success: no later-stage strategy is invoked after a
success. -/
theorem chain_priority_order_short_circuit (o : ChainOracles) :
    (getFullVideoMetadata o).1 = ((chainCalls o).map Prod.snd).findSome? id ∧
    (getFullVideoMetadata o).2 =
      ((chainCalls o).map Prod.fst).take
        (((chainCalls o).map Prod.snd).findIdx Option.isSome + 1) := by
  rw [getFull_eq_runChain]
  exact ⟨runChain_fst _, runChain_snd _⟩

/-- C2 (amended): a record returned by the orchestrator either has a
truthy title (engine variants, internal player API, and watch-page
scrape all gate on it) or was produced by the Invidious or Piped mirror
path, which return the mapped record without any title check. -/
theorem orchestrator_title_gate_by_stage (o : ChainOracles) (m : Meta)
    (h : (getFullVideoMetadata o).1 = some m) :
    pyTruthy m.title = true ∨ m.source = Val.vstr "invidious" ∨
      m.source = Val.vstr "piped" := by
  unfold getFullVideoMetadata at h
  cases hE : (engineProxyLoop o.engineInfo o.proxyCandidates).1 with
  | some m0 =>
    simp only [hE] at h
    simp only [Option.some.injEq] at h
    exact Or.inl (h ▸ engineProxyLoop_fst_title hE)
  | none =>
    simp only [hE] at h
    cases hy : fetchMetadataFromYoutubei o.videoId o.proxyCandidates o.youtubeiResp with
    | some m0 =>
      simp only [hy, Option.some.injEq] at h
      exact Or.inl (h ▸ fetchYoutubei_title hy)
    | none =>
      simp only [hy] at h
      cases hw : fetchMetadataFromWatchHtml o.videoId o.proxyCandidates o.watchResp with
      | some m0 =>
        simp only [hw, Option.some.injEq] at h
        exact Or.inl (h ▸ fetchWatchHtml_title hw)
      | none =>
        simp only [hw] at h
        cases hi : fetchMetadataFromInvidious o.videoId o.invInstances o.proxyCandidates
            o.invResp with
        | some m0 =>
          simp only [hi, Option.some.injEq] at h
          exact Or.inr (Or.inl (h ▸ fetchInvidious_source hi))
        | none =>
          simp only [hi] at h
          cases hp : fetchMetadataFromPiped o.videoId o.pipedInstances o.pipedResp with
          | some m0 =>
            simp only [hp, Option.some.injEq] at h
            exact Or.inr (Or.inr (h ▸ fetchPiped_source hp))
          | none => simp [hp] at h

/-- C2 witness: the amended theorem at a run where the first engine
attempt succeeds with a titled record. -/
theorem orchestrator_title_gate_by_stage_witness :
    pyTruthy (engineMeta titledEngineInfo Option.none 0).title = true ∨
    (engineMeta titledEngineInfo Option.none 0).source = Val.vstr "invidious" ∨
    (engineMeta titledEngineInfo Option.none 0).source = Val.vstr "piped" :=
  orchestrator_title_gate_by_stage engineHitChainOracles
    (engineMeta titledEngineInfo Option.none 0) (by decide)

/-- C2 counterexample: a run where the engine attempts and the first two
fallbacks fail and an Invidious mirror answers 200 with a payload that
has no title: the orchestrator returns that record as a success with a
missing title, so the claim that every returned record has a non-empty
title is false. -/
theorem orchestrator_returns_missing_title :
    ((getFullVideoMetadata titlelessChainOracles).1).map Meta.title = some Val.vnone ∧
    pyTruthy Val.vnone = false := by
  decide

/-- C4 (amended): for quality `audio`, the Piped branch returns a
supplied audio candidate with maximal `_audio_score` (string bitrates
parsed by digit stripping), tagged with its mirror type, or `None` when
no audio candidate has a URL; the Invidious branch (adaptive formats
preferred, format streams as fallback) returns a candidate whose raw
sort key `bitrate or averageBitrate` is maximal under Python's ordering
of the raw values — which is the numerically highest bitrate whenever
the keys are integers, but not necessarily when they are strings, which
compare lexicographically. -/
theorem select_mirror_stream_audio (bag : StreamBag) :
    (urlStreams (bagGet bag.audioStreams) = [] →
      selectMirrorStream (some { mirrorStreams := some bag, mirrorType := Val.vstr "piped" })
        "audio" = Option.none) ∧
    (urlStreams (bagGet bag.audioStreams) ≠ [] →
      ∃ s, s ∈ urlStreams (bagGet bag.audioStreams) ∧
        selectMirrorStream
          (some { mirrorStreams := some bag, mirrorType := Val.vstr "piped" }) "audio" =
          some (dset s "__mirror_type" (Val.vstr "piped")) ∧
        ∀ t ∈ urlStreams (bagGet bag.audioStreams), audioScore t ≤ audioScore s) ∧
    (invAudioCandidates bag = [] →
      selectMirrorStream
        (some { mirrorStreams := some bag, mirrorType := Val.vstr "invidious" }) "audio" =
        Option.none) ∧
    ((∀ t ∈ invAudioCandidates bag, ∃ n : Int, invAudioKey t = Val.vint n) →
      invAudioCandidates bag ≠ [] →
      ∃ s, s ∈ invAudioCandidates bag ∧
        selectMirrorStream
          (some { mirrorStreams := some bag, mirrorType := Val.vstr "invidious" }) "audio" =
          some s ∧
        ∀ t ∈ invAudioCandidates bag, valNum (invAudioKey t) ≤ valNum (invAudioKey s)) := by
  refine ⟨?_, ?_, ?_, ?_⟩
  · intro h
    rw [select_piped_audio bag, h]
    rfl
  · intro h
    obtain ⟨s, rest, heq⟩ :=
      stableSortBy_nonempty (fun a b => decide (audioScore b ≤ audioScore a)) h
    have hmax := stableSortBy_head_max (fun a b => decide (audioScore b ≤ audioScore a))
      (fun a b c hab hbc => by
        simp only [decide_eq_true_eq] at hab hbc ⊢
        omega)
      (fun a b => by
        simp only [decide_eq_true_eq]
        omega)
      heq
    refine ⟨s, hmax.1, ?_, ?_⟩
    · rw [select_piped_audio bag, sortDescBy, heq]
    · intro t ht
      have := hmax.2 t ht
      simpa using this
  · intro h
    rw [select_inv_audio bag, h]
    rfl
  · intro hints h
    obtain ⟨s, rest, heq⟩ :=
      stableSortBy_nonempty (fun a b => valLe (invAudioKey b) (invAudioKey a)) h
    have hmax := stableSortBy_head_max (fun a b => valLe (invAudioKey b) (invAudioKey a))
      (fun a b c hab hbc => valLe_trans _ _ _ hbc hab)
      (fun a b => by exact valLe_total (invAudioKey b) (invAudioKey a))
      heq
    refine ⟨s, hmax.1, ?_, ?_⟩
    · rw [select_inv_audio bag, sortDescByVal, heq]
    · intro t ht
      have hle : valLe (invAudioKey t) (invAudioKey s) = true := hmax.2 t ht
      obtain ⟨nt, hnt⟩ := hints t ht
      obtain ⟨ns, hns⟩ := hints s hmax.1
      rw [hnt, hns] at hle
      simp only [valLe, valRank, valNum, valStr, Bool.or_eq_true, Bool.and_eq_true,
        decide_eq_true_eq] at hle
      rw [hnt, hns]
      simp only [valNum]
      rcases hle with (h1 | ⟨-, h1⟩) | ⟨⟨-, h1⟩, -⟩ <;> omega

/-- C4 witness: the Invidious integer-bitrate branch at a concrete bag:
the selected stream has the maximal bitrate among the candidates. -/
theorem select_mirror_stream_audio_witness :
    ∃ s, s ∈ invAudioCandidates intBitrateBag ∧
      selectMirrorStream
        (some { mirrorStreams := some intBitrateBag, mirrorType := Val.vstr "invidious" })
        "audio" = some s ∧
      ∀ t ∈ invAudioCandidates intBitrateBag,
        valNum (invAudioKey t) ≤ valNum (invAudioKey s) := by
  apply (select_mirror_stream_audio intBitrateBag).2.2.2
  · intro t ht
    have hc : invAudioCandidates intBitrateBag = [audioStreamA, audioStreamB] := by decide
    rw [hc] at ht
    rcases List.mem_cons.mp ht with rfl | ht2
    · exact ⟨64, by decide⟩
    · rcases List.mem_cons.mp ht2 with rfl | ht3
      · exact ⟨128, by decide⟩
      · cases ht3
  · decide

/-- C4 counterexample: with string bitrates "9" and "100" the Invidious
audio branch sorts lexicographically and returns the bitrate-9 stream,
although a supplied audio candidate with a URL has the numerically higher
bitrate 100 — the selected stream is not the highest-bitrate candidate. -/
theorem invidious_audio_not_highest_bitrate :
    selectMirrorStream (some stringBitrateCtx) "audio" = some audioStream9 ∧
    audioStream100 ∈ invAudioCandidates stringBitrateBag ∧
    pyIntOfVal (dget audioStream9 "bitrate") = some 9 ∧
    pyIntOfVal (dget audioStream100 "bitrate") = some 100 ∧
    ¬ (100 : Int) ≤ 9 := by
  decide

/-- C9: `_public_metadata` removes exactly the `__`-prefixed
internal-only keys (in particular `__strategy`, `__proxy`,
`__mirror_instance`, `__mirror_streams`, `__player_response`), leaves
every other key-value pair unchanged and in order, and projects a
missing or empty record to the empty record. -/
theorem public_metadata_strips_internal (α : Type) (l : List (String × α)) :
    publicMetadata (Option.none : Option (List (String × α))) = [] ∧
    publicMetadata (some ([] : List (String × α))) = [] ∧
    List.Sublist (publicMetadata (some l)) l ∧
    (∀ kv, kv ∈ publicMetadata (some l) →
      isPrefixList "__".toList kv.1.toList = false ∧ kv ∈ l) ∧
    (∀ kv, kv ∈ l → isPrefixList "__".toList kv.1.toList = false →
      kv ∈ publicMetadata (some l)) ∧
    (∀ v : α,
      ("__strategy", v) ∉ publicMetadata (some l) ∧
      ("__proxy", v) ∉ publicMetadata (some l) ∧
      ("__mirror_instance", v) ∉ publicMetadata (some l) ∧
      ("__mirror_streams", v) ∉ publicMetadata (some l) ∧
      ("__player_response", v) ∉ publicMetadata (some l)) := by
  refine ⟨rfl, rfl, ?_, ?_, ?_, ?_⟩
  · rw [publicMetadata_eq_filter]
    exact List.filter_sublist l
  · intro kv hkv
    rw [publicMetadata_eq_filter] at hkv
    have h := List.mem_filter.mp hkv
    refine ⟨by simpa using h.2, h.1⟩
  · intro kv hkv hpref
    rw [publicMetadata_eq_filter]
    exact List.mem_filter.mpr ⟨hkv, by simpa using hpref⟩
  · intro v
    refine ⟨?_, ?_, ?_, ?_, ?_⟩ <;>
      · intro hmem
        rw [publicMetadata_eq_filter] at hmem
        have h := (List.mem_filter.mp hmem).2
        simp only [decide_eq_true_eq] at h
        exact h (by decide)

/-- C9 witness: the theorem applied to a concrete two-field record. -/
theorem public_metadata_strips_internal_witness :
    ("title", Val.vstr "T") ∈
      publicMetadata (some [("title", Val.vstr "T"), ("__proxy", Val.vnone)]) ∧
    (("__proxy", Val.vnone) ∉
      publicMetadata (some [("title", Val.vstr "T"), ("__proxy", Val.vnone)])) := by
  have h := public_metadata_strips_internal Val
    [("title", Val.vstr "T"), ("__proxy", Val.vnone)]
  exact ⟨h.2.2.2.2.1 ("title", Val.vstr "T") (by decide) (by decide),
    (h.2.2.2.2.2 Val.vnone).2.1⟩

/-- C7: date normalization maps "2024-03-05", "2024/03/05", epoch
1709625600 and "20240305" to "20240305", and `_normalize_simple_date`
returns `None` for any input that is not a string of one of the accepted
shapes (three digit groups separated by `-`/`/`, or an 8-digit
numeral). -/
theorem date_normalization_spec :
    normalizeSimpleDate (Val.vstr "2024-03-05") = some "20240305" ∧
    normalizeSimpleDate (Val.vstr "2024/03/05") = some "20240305" ∧
    formatUploadDate (Val.vint 1709625600) = some "20240305" ∧
    normalizeSimpleDate (Val.vstr "20240305") = some "20240305" ∧
    (∀ v, normalizeSimpleDate v ≠ Option.none →
      ∃ s, v = Val.vstr s ∧ simpleDateAccepted s = true) := by
  refine ⟨by decide, by decide, by decide, by decide, ?_⟩
  intro v h
  cases v with
  | vstr s =>
    refine ⟨s, rfl, ?_⟩
    rw [← normalizeSimpleDate_isSome_eq]
    exact Option.isSome_iff_ne_none.mpr h
  | vnone => exact absurd rfl h
  | vint n => exact absurd rfl h
  | vbool b => exact absurd rfl h
  | vother => exact absurd rfl h

/-- C7 witness: the rejection direction applied to a concrete accepted
input. -/
theorem date_normalization_spec_witness :
    ∃ s, Val.vstr "2024-03-05" = Val.vstr s ∧ simpleDateAccepted s = true :=
  date_normalization_spec.2.2.2.2 (Val.vstr "2024-03-05") (by decide)

/-- C8 (amended): duration coercion never raises in any of the three
normalizers; the Invidious and Piped mappers yield the integer for every
value `int(...)` accepts and `None` otherwise, while the player-response
mapper additionally yields `None` for every falsy value (such as the
integer 0) because its guard tests truthiness rather than `is not
None`. -/
theorem duration_coercion_total :
    (∀ data : PyDict, ∀ n : Int, pyIntOfVal (dget data "lengthSeconds") = some n →
        invidiousDurationVal data = Val.vint n) ∧
    (∀ data : PyDict, pyIntOfVal (dget data "lengthSeconds") = Option.none →
        invidiousDurationVal data = Val.vnone) ∧
    (∀ data : PyDict, ∀ n : Int, pyIntOfVal (dget data "duration") = some n →
        pipedDurationVal data = Val.vint n) ∧
    (∀ data : PyDict, pyIntOfVal (dget data "duration") = Option.none →
        pipedDurationVal data = Val.vnone) ∧
    (∀ vd : PyDict, ∀ n : Int, pyTruthy (dget vd "lengthSeconds") = true →
        pyIntOfVal (dget vd "lengthSeconds") = some n →
        playerDurationVal vd = Val.vint n) ∧
    (∀ vd : PyDict, pyTruthy (dget vd "lengthSeconds") = false →
        playerDurationVal vd = Val.vnone) ∧
    (∀ vd : PyDict, pyIntOfVal (dget vd "lengthSeconds") = Option.none →
        playerDurationVal vd = Val.vnone) := by
  refine ⟨?_, ?_, ?_, ?_, ?_, ?_, ?_⟩
  · intro data n h
    unfold invidiousDurationVal
    cases hv : dget data "lengthSeconds" <;> rw [hv] at h <;>
      simp_all [pyIntOfVal, valOfOptInt]
  · intro data h
    unfold invidiousDurationVal
    cases hv : dget data "lengthSeconds" <;> rw [hv] at h <;>
      simp_all [pyIntOfVal, valOfOptInt]
  · intro data n h
    unfold pipedDurationVal
    cases hv : dget data "duration" <;> rw [hv] at h <;>
      simp_all [pyIntOfVal, valOfOptInt]
  · intro data h
    unfold pipedDurationVal
    cases hv : dget data "duration" <;> rw [hv] at h <;>
      simp_all [pyIntOfVal, valOfOptInt]
  · intro vd n htru h
    unfold playerDurationVal
    rw [htru, if_pos rfl, h]
    rfl
  · intro vd htru
    unfold playerDurationVal
    rw [htru]
    simp
  · intro vd h
    unfold playerDurationVal
    split_ifs with htru
    · rw [h]
      rfl
    · rfl

/-- C8 witness: the Invidious coercion at a concrete string duration. -/
theorem duration_coercion_total_witness :
    pyIntOfVal (dget [("lengthSeconds", Val.vstr "212")] "lengthSeconds") = some 212 ∧
    invidiousDurationVal [("lengthSeconds", Val.vstr "212")] = Val.vint 212 :=
  ⟨by decide, duration_coercion_total.1 [("lengthSeconds", Val.vstr "212")] 212 (by decide)⟩

/-- C8 counterexample: the integer 0 is a valid integer representation,
yet the player-response normalizer maps it to `None` (its guard is
truthiness), so the claim as stated fails for that normalizer. -/
theorem player_duration_zero_counterexample :
    pyIntOfVal (Val.vint 0) = some 0 ∧
    playerDurationVal [("lengthSeconds", Val.vint 0)] = Val.vnone ∧
    (mapPlayerResponseMetadata
        (some { videoDetails := [("title", Val.vstr "t"), ("lengthSeconds", Val.vint 0)] })
        Option.none "youtubei_player").map Meta.duration = some Val.vnone := by
  decide

/-- C10 (amended): `get_free_proxy` walks the sources in order, skipping
failed fetches and empty proxy lists; from the first source with a
non-empty list it probes the sampled candidates and returns the first
that responds, and when none responds it returns the entry selected by
`random.choice` — an arbitrary entry of the list, not necessarily the
first — unverified. -/
theorem free_proxy_source_walk (probe : String → Bool) (sampleIdx : List Nat)
    (choiceIdx : Nat) :
    getFreeProxy [] probe sampleIdx choiceIdx = Option.none ∧
    (∀ url rest, getFreeProxy ((url, Option.none) :: rest) probe sampleIdx choiceIdx =
        getFreeProxy rest probe sampleIdx choiceIdx) ∧
    (∀ url body rest, validProxiesOf body = [] →
        getFreeProxy ((url, some body) :: rest) probe sampleIdx choiceIdx =
          getFreeProxy rest probe sampleIdx choiceIdx) ∧
    (∀ url body rest, validProxiesOf body ≠ [] →
        getFreeProxy ((url, some body) :: rest) probe sampleIdx choiceIdx =
          (match probeSampled url probe
              ((sampleIdx.take (min 3 (validProxiesOf body).length)).map
                (fun i => (validProxiesOf body).getD (i % (validProxiesOf body).length) "")) with
          | some u => some u
          | Option.none =>
            some (proxyUrlFor url
              ((validProxiesOf body).getD (choiceIdx % (validProxiesOf body).length) "")))) ∧
    (∀ url p rest2, probe (proxyUrlFor url p) = true →
        probeSampled url probe (p :: rest2) = some (proxyUrlFor url p)) := by
  refine ⟨rfl, fun url rest => rfl, ?_, ?_, ?_⟩
  · intro url body rest h
    simp [getFreeProxy, h]
  · intro url body rest h
    have hne : (validProxiesOf body).isEmpty = false := by
      simpa [List.isEmpty_iff] using h
    simp only [getFreeProxy, hne, Bool.false_eq_true, if_false]
  · intro url p rest2 h
    simp [probeSampled, h]

/-- C10 witness: the source-walk equations at concrete inputs. -/
theorem free_proxy_source_walk_witness :
    getFreeProxy [("http://a", some "#")] (fun _ => false) [] 0 =
      getFreeProxy [] (fun _ => false) [] 0 ∧
    probeSampled "https://s" (fun _ => true) ["p"] = some "https://p" := by
  constructor
  · exact (free_proxy_source_walk (fun _ => false) [] 0).2.2.1 "http://a" "#" [] (by decide)
  · exact (free_proxy_source_walk (fun _ => true) [] 0).2.2.2.2 "https://s" "p" [] (by decide)

/-- C10 counterexample: with proxy list ["a", "b"] and a probe that never
responds, `get_free_proxy` returns the `random.choice` entry "b", not the
first entry "a" — the claim that the first entry of the list is returned
unverified is false. -/
theorem free_proxy_fallback_not_first :
    validProxiesOf "a\nb" = ["a", "b"] ∧
    getFreeProxy [("http://src", some "a\nb")] (fun _ => false) [0] 1 = some "http://b" ∧
    some "http://b" ≠ some (proxyUrlFor "http://src" "a") := by
  decide

end YtDl
